import Mathlib

/-
Verification of the 591 rental crawler (src/crawler.ts, second revision in the
file, the one with batched sheet writes).  The reconciliation phase of
writeListingsToSheet, the deduplication in processSheet, the pagination and
retry loop of crawlUrl and the price parsing of extractListingsFromPage are
embedded as executable Lean functions, and the behavioural claims about them
are settled below.
-/

namespace Crawler591

/-- A JavaScript number that may be NaN: `none` is NaN, `some n` an integer.
All numbers the crawler handles are integers, so no rationals are needed. -/
abbrev JsNum := Option Int

/-- JS strict inequality `a !== b` on numbers: NaN compares unequal to every
number and to itself.  Source: the `Number(existingRow.get("Price")) !==
listing.priceNumber` comparison in writeListingsToSheet. -/
def numNe : JsNum → JsNum → Bool
  | some x, some y => x != y
  | _, _ => true

/-- One crawled listing, the `ListingItem` interface of src/crawler.ts.
`priceNumber` is a `JsNum` because `parseInt` can produce NaN. -/
structure ListingItem where
  id : String
  title : String
  price : String
  priceUnit : String
  priceNumber : JsNum
  propertyType : String
  size : String
  floor : String
  location : String
  metroDistance : String
  tags : List String
  agentType : String
  agentName : String
  updateInfo : String
  views : Int
  url : String
  sourceUrl : String
deriving Repr, DecidableEq

/-- The `listing.tags.join(", ")` of the source. -/
def tagsStr (l : ListingItem) : String := String.intercalate ", " l.tags

/-- One data row of the Data sheet, columns A to T.  `title` holds the value
the sheet displays for column E: the source writes a HYPERLINK formula whose
label is the listing title, and reads back the displayed label (see the
comment above `hasChanges` in the source).  `price` is the `Number(...)` view
of column F, so it can be NaN. -/
structure StoreRow where
  mark : String
  rating : String
  remarks : String
  propertyId : String
  title : String
  price : JsNum
  propertyType : String
  size : String
  floor : String
  location : String
  metroDistance : String
  tags : String
  agentType : String
  agentName : String
  updateInfo : String
  views : Int
  sourceUrl : String
  firstSeen : String
  lastUpdated : String
  status : String
deriving Repr, DecidableEq

/-- One entry of the `existingProperties` JS Map built by
getExistingProperties: Property ID, the row object, and the 1-based data row
index (row i of the rows array sits at sheet data index i+1). -/
structure ExistingEntry where
  id : String
  row : StoreRow
  rowIndex : Nat
deriving Repr, DecidableEq

/-- JS `Map.set` keyed through `f`: replace the value in place when the key is
already present (keeping first-insertion order), append otherwise. -/
def jsMapSet {α : Type} (f : α → String) : List α → α → List α
  | [], x => [x]
  | a :: as, x => if f a == f x then x :: as else a :: jsMapSet f as x

/-- The loop of getExistingProperties: walk the rows with their index, skip
rows whose Property ID is empty (falsy), and `map.set` the rest. -/
def getExistingGo : Nat → List StoreRow → List ExistingEntry → List ExistingEntry
  | _, [], acc => acc
  | i, r :: rs, acc =>
      getExistingGo (i + 1) rs
        (if r.propertyId == "" then acc
         else jsMapSet (fun e => e.id) acc ⟨r.propertyId, r, i + 1⟩)

/-- getExistingProperties of src/crawler.ts as a map from the sheet rows. -/
def getExisting (rows : List StoreRow) : List ExistingEntry :=
  getExistingGo 0 rows []

/-- `Map.get` on the entry list: the first (unique) entry with the key. -/
def findEntry (E : List ExistingEntry) (id : String) : Option ExistingEntry :=
  E.find? (fun e => e.id == id)

/-- The `hasChanges` comparison of writeListingsToSheet: every tracked field,
with Views deliberately excluded, plus the stored Status not being Active.
Price uses JS strict inequality on numbers (`numNe`). -/
def hasChanges (r : StoreRow) (l : ListingItem) : Bool :=
  (r.title != l.title) ||
  numNe r.price l.priceNumber ||
  (r.propertyType != l.propertyType) ||
  (r.size != l.size) ||
  (r.floor != l.floor) ||
  (r.location != l.location) ||
  (r.metroDistance != l.metroDistance) ||
  (r.tags != tagsStr l) ||
  (r.agentType != l.agentType) ||
  (r.agentName != l.agentName) ||
  (r.updateInfo != l.updateInfo) ||
  (r.status != "Active")

/-- The row a new listing is inserted as: owned columns A to C empty, all data
columns from the listing, First Seen and Last Updated set to now, Status
Active.  The Title cell receives the HYPERLINK formula whose displayed label
is the listing title. -/
def insertRowOf (now : String) (l : ListingItem) : StoreRow :=
  ⟨"", "", "", l.id, l.title, l.priceNumber, l.propertyType, l.size, l.floor,
   l.location, l.metroDistance, tagsStr l, l.agentType, l.agentName,
   l.updateInfo, l.views, l.sourceUrl, now, now, "Active"⟩

/-- The effect of one update row of the batch on a stored row: columns E to T
written from the listing, except First Seen whose entry is null and therefore
skipped; columns A to D are not loaded at all. -/
def applyUpdate (r : StoreRow) (l : ListingItem) (now : String) : StoreRow :=
  { r with
    title := l.title
    price := l.priceNumber
    propertyType := l.propertyType
    size := l.size
    floor := l.floor
    location := l.location
    metroDistance := l.metroDistance
    tags := tagsStr l
    agentType := l.agentType
    agentName := l.agentName
    updateInfo := l.updateInfo
    views := l.views
    sourceUrl := l.sourceUrl
    lastUpdated := now
    status := "Active" }

/-- The effect of marking a row inactive: only Last Updated and Status are
written. -/
def retireRow (r : StoreRow) (now : String) : StoreRow :=
  { r with lastUpdated := now, status := "Inactive" }

/-- The decision sets writeListingsToSheet accumulates before touching the
sheet: rows to insert at the top, updates and retirements keyed by the
pre-insertion row index, and the four counters it returns. -/
structure WriteResult where
  newRows : List ListingItem
  updates : List (Nat × ListingItem)
  inactivates : List Nat
  added : Nat
  updated : Nat
  unchanged : Nat
  inactive : Nat
deriving Repr, DecidableEq

/-- One iteration of the listings loop of writeListingsToSheet. -/
def recStep (E : List ExistingEntry) (acc : WriteResult) (l : ListingItem) :
    WriteResult :=
  match findEntry E l.id with
  | some e =>
      if hasChanges e.row l then
        { acc with updates := acc.updates ++ [(e.rowIndex, l)],
                   updated := acc.updated + 1 }
      else
        { acc with unchanged := acc.unchanged + 1 }
  | none =>
      { acc with newRows := acc.newRows ++ [l], added := acc.added + 1 }

/-- One iteration of the retirement loop: an entry whose id was not seen in
the batch and whose stored Status is Active is collected for retirement. -/
def inactStep (seen : List String) (acc : WriteResult) (e : ExistingEntry) :
    WriteResult :=
  if !(seen.contains e.id) && (e.row.status == "Active") then
    { acc with inactivates := acc.inactivates ++ [e.rowIndex],
               inactive := acc.inactive + 1 }
  else acc

/-- The decision phase of writeListingsToSheet: the listings loop followed by
the retirement loop over the existing-properties map.  `seenIds` is built up
during the first loop, but the second loop only runs after it holds every
listing id, so it is the full id list here.  The timestamp plays no role in
the decisions and is applied at write time. -/
def reconcile (listings : List ListingItem) (E : List ExistingEntry) :
    WriteResult :=
  let seen := listings.map (fun l => l.id)
  E.foldl (inactStep seen) (listings.foldl (recStep E) ⟨[], [], [], 0, 0, 0, 0⟩)

/-- The `new Map(allListings.map(l => [l.id, l])).values()` deduplication of
processSheet: keys keep first-insertion order, the value of a key is its last
occurrence. -/
def dedupeById (B : List ListingItem) : List ListingItem :=
  B.foldl (jsMapSet (fun l => l.id)) []

/-- The cell writes of the second batch target sheet row `idx`; after the top
insertion of N rows, the pre-insertion data row `idx` sits at shifted index
`idx + N`, which is list position `idx + N - 1` of the new-rows-first list,
that is position `idx - 1` of the old rows.  `applyRow` gives the combined
effect of the batch on the row that carried pre-insertion index `idx`. -/
def applyRow (res : WriteResult) (now : String) (idx : Nat) (r : StoreRow) :
    StoreRow :=
  match res.updates.find? (fun u => u.1 == idx) with
  | some u => applyUpdate r u.2 now
  | none => if res.inactivates.contains idx then retireRow r now else r

/-- Apply the update and retirement writes position by position, `idx` being
the pre-insertion sheet data index of the head row. -/
def applyTail (res : WriteResult) (now : String) : Nat → List StoreRow → List StoreRow
  | _, [] => []
  | idx, r :: rs => applyRow res now idx r :: applyTail res now (idx + 1) rs

/-- The snapshot after the run: the inserted rows at the top (the writer
inserts them at sheet position 1, before all data rows), followed by the old
rows with the batched update and retirement writes applied. -/
def applySheet (rows : List StoreRow) (res : WriteResult) (now : String) :
    List StoreRow :=
  res.newRows.map (insertRowOf now) ++ applyTail res now 1 rows

/-! Closed forms of the reconcile decision phase. -/

/-- Listings whose id is not in the snapshot map: classified as inserts. -/
def newOf (L : List ListingItem) (E : List ExistingEntry) : List ListingItem :=
  L.filter (fun l => (findEntry E l.id).isNone)

/-- Listings found in the snapshot map with a detected change: classified as
updates, keyed by the pre-insertion row index of the map entry. -/
def updOf (L : List ListingItem) (E : List ExistingEntry) :
    List (Nat × ListingItem) :=
  L.filterMap (fun l =>
    match findEntry E l.id with
    | some e => if hasChanges e.row l then some (e.rowIndex, l) else none
    | none => none)

/-- Listings found in the snapshot map with no detected change. -/
def unchCount (L : List ListingItem) (E : List ExistingEntry) : Nat :=
  L.countP (fun l =>
    match findEntry E l.id with
    | some e => !(hasChanges e.row l)
    | none => false)

/-- Map entries not seen in the batch whose stored status is Active:
classified as retirements. -/
def inactOf (E : List ExistingEntry) (seen : List String) : List Nat :=
  E.filterMap (fun e =>
    if !(seen.contains e.id) && (e.row.status == "Active") then some e.rowIndex
    else none)

/-! Concrete data for the counterexamples and witnesses. -/

/-- A snapshot row sourced from query Q1, Active, with owned annotations. -/
def rowA : StoreRow :=
  ⟨"x", "5", "note", "A", "tA", some 100, "pt", "10", "3F", "loc", "md",
   "tg", "at", "an", "ui", 5, "Q1", "2025-01-01", "2025-01-01", "Active"⟩

/-- The snapshot map holding only `rowA` at data row index 1. -/
def entryA : ExistingEntry := ⟨"A", rowA, 1⟩

/-- A listing crawled for a different query Q2, with an id other than A. -/
def listB : ListingItem :=
  ⟨"B", "tB", "200", "元/月", some 200, "pt", "10", "3F", "loc", "md",
   ["tg"], "at", "an", "ui", 3, "u", "Q2"⟩

/-- A snapshot row whose Price cell does not hold a number, so `Number(...)`
views it as NaN; every other compared field agrees with `listN` below. -/
def rowN : StoreRow :=
  ⟨"", "", "", "N", "tN", none, "pt", "10", "3F", "loc", "md", "tg",
   "at", "an", "ui", 5, "Q1", "2025-01-01", "2025-01-01", "Active"⟩

/-- A listing whose price string is non-numeric, so parseInt gave NaN; it
agrees with `rowN` on every compared field and differs only in views. -/
def listN : ListingItem :=
  ⟨"N", "tN", "面議", "元/月", none, "pt", "10", "3F", "loc", "md", ["tg"],
   "at", "an", "ui", 999, "u", "Q1"⟩

/-- A stored row that agrees with `listU` on every compared field, the price
being a real number; only the view count differs. -/
def rowU : StoreRow :=
  ⟨"", "", "", "U", "tU", some 100, "pt", "10", "3F", "loc", "md", "tg",
   "at", "an", "ui", 5, "Q1", "2025-01-01", "2025-01-01", "Active"⟩

/-- The batch record matching `rowU` except for the view count. -/
def listU : ListingItem :=
  ⟨"U", "tU", "100", "元/月", some 100, "pt", "10", "3F", "loc", "md", ["tg"],
   "at", "an", "ui", 999, "u", "Q1"⟩

/-! Characterization of the existing-properties map through the last
occurrence of each Property ID: a later `map.set` on the same key overwrites
the earlier value, so a lookup returns the row of the last occurrence. -/

/-- Position (0-based) and row of the last occurrence of a Property ID. -/
def lastPos : List StoreRow → String → Option (Nat × StoreRow)
  | [], _ => none
  | r :: rs, id =>
      match lastPos rs id with
      | some kr => some (kr.1 + 1, kr.2)
      | none => if r.propertyId == id then some (0, r) else none

/-- The non-empty Property IDs of the sheet rows, in order.  The data-model
invariant of the spec (exactly one StoreRow per id per store) says this list
has no duplicates. -/
def sheetIds (rows : List StoreRow) : List String :=
  rows.filterMap (fun r => if r.propertyId == "" then none else some r.propertyId)

/-! The page loop of crawlUrl: pagination, retries, timeouts, caps. -/

/-- Whether `needle` occurs at the head of `hay`. -/
def beginsWith : List Char → List Char → Bool
  | [], _ => true
  | _ :: _, [] => false
  | a :: as, b :: bs => a == b && beginsWith as bs

/-- Whether `needle` occurs anywhere in `hay`. -/
def listHas (needle : List Char) : List Char → Bool
  | [] => beginsWith needle []
  | c :: rest => beginsWith needle (c :: rest) || listHas needle rest

/-- JS `hay.includes(needle)`. -/
def strIncludes (hay needle : String) : Bool :=
  listHas needle.toList hay.toList

/-- The timeout test of the catch block of crawlUrl:
`message.includes("timed out")`. -/
def isTimeoutMsg (m : String) : Bool := strIncludes m "timed out"

/-- The message of the outer per-page wall-clock timeout, constructed inside
crawlUrl with PAGE_CRAWL_TIMEOUT_MS = 60000. -/
def outerTimeoutMsg (pageNum : Nat) : String :=
  "Page " ++ toString pageNum ++ " timed out after 60000ms"

/-- Modelled from the Playwright rendering engine, which is outside this
repository: the navigation timeout of page.goto raises an error whose message
reads "Timeout 30000ms exceeded" with a capital T.  The test-crawler variant
in this repository checks `message.includes("Timeout")` in exactly this
capitalised form alongside the lowercase phrase, confirming the shape. -/
def navTimeoutMsg : String := "Timeout 30000ms exceeded"

/-- What the browser layer hands one attempt of one page: the extracted
listings (a blocked page and a page whose embedded data is missing both
surface inside the race as an empty list), or a thrown error with its
message (navigation failures and the outer wall-clock timeout). -/
inductive FetchOutcome where
  | ok (items : List ListingItem)
  | err (msg : String)
deriving Repr, DecidableEq

/-- How the attempt loop for one page of crawlUrl ends. -/
inductive PageResult where
  | gotItems (items : List ListingItem)
  | stopEmpty
  | stopTimeout
  | exhausted
deriving Repr, DecidableEq

/-- PAGE_RETRY_COUNT of the source configuration. -/
def PAGE_RETRY_COUNT : Nat := 3

/-- MAX_PAGES_PER_URL of the source configuration. -/
def MAX_PAGES_PER_URL : Nat := 10

/-- MAX_ITEMS_PER_URL of the source configuration. -/
def MAX_ITEMS_PER_URL : Nat := 30

/-- REQUEST_DELAY_MS of the source configuration. -/
def REQUEST_DELAY_MS : Nat := 2000

/-- The delay slept before retry attempt `attempt` of a page:
`CONFIG.REQUEST_DELAY_MS + Math.floor(Math.random() * 4000)`; the jitter is
below 4000 and the attempt number plays no role in the delay. -/
def pageRetryDelay (attempt jitter : Nat) : Nat := REQUEST_DELAY_MS + jitter

/-- The attempt loop of crawlUrl: an empty listings array returns the
collected results (pagination end), a nonempty one succeeds; a thrown error
whose message contains "timed out" ends the query at once, any other error
is retried while attempts remain and exhausts the page after the last one. -/
def attemptsGo (fetch : Nat → Nat → FetchOutcome) (pageNum : Nat) :
    Nat → Nat → PageResult
  | _, 0 => .exhausted
  | attempt, rem + 1 =>
      match fetch pageNum attempt with
      | .ok [] => .stopEmpty
      | .ok (i :: is) => .gotItems (i :: is)
      | .err m =>
          if isTimeoutMsg m then .stopTimeout
          else
            match rem with
            | 0 => .exhausted
            | r + 1 => attemptsGo fetch pageNum (attempt + 1) (r + 1)

/-- All attempts of one page, starting at attempt 1 with the full budget. -/
def attemptPage (fetch : Nat → Nat → FetchOutcome) (pageNum : Nat) :
    PageResult :=
  attemptsGo fetch pageNum 1 PAGE_RETRY_COUNT

/-- The final `slice(0, maxItems)` of crawlUrl, applied when the collected
count strictly exceeds the item budget. -/
def trimItems (l : List ListingItem) : List ListingItem :=
  if MAX_ITEMS_PER_URL < l.length then l.take MAX_ITEMS_PER_URL else l

/-- The page loop of crawlUrl with the remaining page budget as fuel.  The
item-cap check runs at the top of each iteration; the early returns on an
empty page or a timeout hand back the collected listings directly and bypass
the final trim, while normal loop exits trim. -/
def crawlGo (fetch : Nat → Nat → FetchOutcome) :
    Nat → Nat → List ListingItem → List ListingItem
  | 0, _, acc => trimItems acc
  | fuel + 1, pageNum, acc =>
      if MAX_ITEMS_PER_URL ≤ acc.length then trimItems acc
      else
        match attemptPage fetch pageNum with
        | .stopEmpty => acc
        | .stopTimeout => acc
        | .gotItems items => crawlGo fetch fuel (pageNum + 1) (acc ++ items)
        | .exhausted => crawlGo fetch fuel (pageNum + 1) acc

/-- crawlUrl of the source: pages 1 to MAX_PAGES_PER_URL. -/
def crawlListings (fetch : Nat → Nat → FetchOutcome) : List ListingItem :=
  crawlGo fetch MAX_PAGES_PER_URL 1 []

/-- The item returned by the third page-fetch attempt in the C3 trace. -/
def itemC3 : ListingItem :=
  ⟨"C3", "t", "100", "元/月", some 100, "pt", "10", "3F", "loc", "md", [],
   "at", "an", "ui", 1, "u", "Q"⟩

/-- The C3 trace: page 1 attempt 1 raises the navigation timeout of the
rendering engine, attempt 2 delivers one listing, and every later page is
empty. -/
def fetchC3 : Nat → Nat → FetchOutcome
  | 1, 1 => .err navTimeoutMsg
  | 1, 2 => .ok [itemC3]
  | _, _ => .ok []

/-- The item returned by the third attempt in the C4 witness trace. -/
def itemC4 : ListingItem :=
  ⟨"C4", "t", "100", "元/月", some 100, "pt", "10", "3F", "loc", "md", [],
   "at", "an", "ui", 1, "u", "Q"⟩

/-- The C4 witness trace: the first two attempts of every page raise a
network error, the third succeeds. -/
def fetchC4 : Nat → Nat → FetchOutcome
  | _, 3 => .ok [itemC4]
  | _, _ => .err "net ERR_CONNECTION_RESET"

/-! The priceNumber computation of extractListingsFromPage. -/

/-- JS StrWhiteSpaceChar, restricted to the ASCII whitespace characters:
space, tab, line feed, carriage return, vertical tab, form feed. -/
def isJsWhitespace (c : Char) : Bool :=
  c == ' ' || c == '\t' || c == '\n' || c == '\r' || c == '\u000B' ||
    c == '\u000C'

/-- The value of the longest digit prefix; `none` when there is no digit. -/
def digitPrefixVal (cs : List Char) : Option Nat :=
  let ds := cs.takeWhile (fun c => c.isDigit)
  if ds.isEmpty then none
  else some (ds.foldl (fun a c => a * 10 + (c.toNat - 48)) 0)

/-- The sign-and-digits phase of parseInt on the whitespace-stripped
characters: an optional leading sign, then the longest digit prefix; NaN
(`none`) when no digit follows. -/
def parseChars : List Char → Option Int
  | '-' :: rest => (digitPrefixVal rest).map (fun n => -(Int.ofNat n))
  | '+' :: rest => (digitPrefixVal rest).map (fun n => Int.ofNat n)
  | cs => (digitPrefixVal cs).map (fun n => Int.ofNat n)

/-- ECMAScript parseInt(s, 10): skip leading whitespace, read an optional
sign, then the longest digit prefix; NaN (`none`) when no digit follows. -/
def parseIntJS10 (s : String) : Option Int :=
  parseChars (s.toList.dropWhile isJsWhitespace)

/-- `String(item.price).replace(/,/g, "")` of the source. -/
def stripCommas (s : String) : String :=
  String.mk (s.toList.filter (fun c => c != ','))

/-- The raw `item.price` field of one item of the embedded data payload. -/
inductive PriceField where
  | absent
  | str (s : String)
  | num (n : Int)
deriving Repr, DecidableEq

/-- JS truthiness of the raw price field: undefined and null are falsy, a
string is truthy when non-empty, a number when non-zero. -/
def truthyPrice : PriceField → Bool
  | .absent => false
  | .str s => s != ""
  | .num n => n != 0

/-- JS `String(item.price)` for each shape of the field. -/
def priceFieldStr : PriceField → String
  | .absent => "undefined"
  | .str s => s
  | .num n => toString n

/-- The priceNumber computation of extractListingsFromPage:
`item.price ? parseInt(String(item.price).replace(/,/g, ""), 10) : 0`. -/
def priceNumberOf (p : PriceField) : Option Int :=
  if truthyPrice p then parseIntJS10 (stripCommas (priceFieldStr p))
  else some 0

/-- Whether the first character of the list is a decimal digit. -/
def headIsDigit : List Char → Bool
  | c :: _ => c.isDigit
  | [] => false

/-- Whether the sign-and-digits phase will find no digit at all. -/
def noDigitChars : List Char → Bool
  | '-' :: rest => !(headIsDigit rest)
  | '+' :: rest => !(headIsDigit rest)
  | cs => !(headIsDigit cs)

/-- True exactly when parseInt finds no digits: after leading whitespace and
an optional sign, the next character is missing or not a digit. -/
def noDigitToParse (s : String) : Bool :=
  noDigitChars (s.toList.dropWhile isJsWhitespace)

/-- Whether a string begins with a decimal digit. -/
def firstCharIsDigit (s : String) : Bool := headIsDigit s.toList

/-! The write phase of writeListingsToSheet: batched sheet operations. -/

/-- A value written into one cell.  The HYPERLINK formula written into the
Title column carries the url and the label the sheet displays. -/
inductive CellVal where
  | s (v : String)
  | n (v : JsNum)
  | i (v : Int)
  | hyper (url label : String)
deriving Repr, DecidableEq

/-- Writing one cell of a data row, by column index 0 to 19.  A HYPERLINK
formula in the Title column stores its displayed label. -/
def setCell (r : StoreRow) (col : Nat) (v : CellVal) : StoreRow :=
  match col, v with
  | 0, .s x => { r with mark := x }
  | 1, .s x => { r with rating := x }
  | 2, .s x => { r with remarks := x }
  | 3, .s x => { r with propertyId := x }
  | 4, .hyper _ t => { r with title := t }
  | 4, .s x => { r with title := x }
  | 5, .n x => { r with price := x }
  | 6, .s x => { r with propertyType := x }
  | 7, .s x => { r with size := x }
  | 8, .s x => { r with floor := x }
  | 9, .s x => { r with location := x }
  | 10, .s x => { r with metroDistance := x }
  | 11, .s x => { r with tags := x }
  | 12, .s x => { r with agentType := x }
  | 13, .s x => { r with agentName := x }
  | 14, .s x => { r with updateInfo := x }
  | 15, .i x => { r with views := x }
  | 16, .s x => { r with sourceUrl := x }
  | 17, .s x => { r with firstSeen := x }
  | 18, .s x => { r with lastUpdated := x }
  | 19, .s x => { r with status := x }
  | _, _ => r

/-- The 20-column data array of one inserted row (columns A to T). -/
def newRowData (l : ListingItem) (now : String) : List CellVal :=
  [.s "", .s "", .s "", .s l.id, .hyper l.url l.title, .n l.priceNumber,
   .s l.propertyType, .s l.size, .s l.floor, .s l.location,
   .s l.metroDistance, .s (tagsStr l), .s l.agentType, .s l.agentName,
   .s l.updateInfo, .i l.views, .s l.sourceUrl, .s now, .s now, .s "Active"]

/-- The 16-entry update array for columns E to T of one updated row; the
null entry at the First Seen position is skipped at write time. -/
def updateData (l : ListingItem) (now : String) : List (Option CellVal) :=
  [some (.hyper l.url l.title), some (.n l.priceNumber),
   some (.s l.propertyType), some (.s l.size), some (.s l.floor),
   some (.s l.location), some (.s l.metroDistance), some (.s (tagsStr l)),
   some (.s l.agentType), some (.s l.agentName), some (.s l.updateInfo),
   some (.i l.views), some (.s l.sourceUrl), none, some (.s now),
   some (.s "Active")]

/-- One cell write: sheet row index, column index, value. -/
abbrev CellWrite := Nat × Nat × CellVal

/-- The cell writes of one update row: the non-null entries of the update
array land in columns E (4) to T (19) of the given sheet row. -/
def rowUpdateWrites (ri : Nat) (l : ListingItem) (now : String) :
    List CellWrite :=
  (updateData l now).enum.filterMap
    (fun cv => cv.2.map (fun v => (ri, cv.1 + 4, v)))

/-- The two cell writes of one retirement: Last Updated (column S, index 18)
and Status (column T, index 19). -/
def retireWrites (ri : Nat) (now : String) : List CellWrite :=
  [(ri, 18, .s now), (ri, 19, .s "Inactive")]

/-- The cell writes filling the freshly inserted blank rows 1 to N. -/
def newRowWrites (ls : List ListingItem) (now : String) : List CellWrite :=
  ls.enum.bind
    (fun il => (newRowData il.2 now).enum.map
      (fun jv => (1 + il.1, jv.1, jv.2)))

/-- One batched call against the sheet API: a positional row insertion at
the top, or one batch save of pending cell writes. -/
inductive SheetOp where
  | insertRowsTop (n : Nat)
  | saveCells (ws : List CellWrite)
deriving Repr, DecidableEq

/-- Whether an operation is the positional row insertion. -/
def isInsertOp : SheetOp → Bool
  | .insertRowsTop _ => true
  | _ => false

/-- Whether an operation is a batch save of cell writes. -/
def isSaveOp : SheetOp → Bool
  | .saveCells _ => true
  | _ => false

/-- The index shift applied after top insertion: the source adds
newRows.length to every collected update and retirement index when at least
one row was inserted (and inserts nothing otherwise). -/
def shiftAmount (res : WriteResult) : Nat :=
  if res.newRows.isEmpty then 0 else res.newRows.length

/-- The write phase of writeListingsToSheet as its sequence of batched sheet
operations: when there are new rows, one insertDimension at the top plus one
batch save of their cells; then, when there are updates or retirements, one
second batch save whose writes target the shifted row indices. -/
def sheetOps (res : WriteResult) (now : String) : List SheetOp :=
  (if res.newRows.isEmpty then []
   else [SheetOp.insertRowsTop res.newRows.length,
         SheetOp.saveCells (newRowWrites res.newRows now)]) ++
  (let ups := res.updates.map (fun u => (u.1 + shiftAmount res, u.2))
   let ina := res.inactivates.map (fun i => i + shiftAmount res)
   if ups.isEmpty && ina.isEmpty then []
   else [SheetOp.saveCells
     ((ups.bind (fun u => rowUpdateWrites u.1 u.2 now)) ++
      (ina.bind (fun i => retireWrites i now)))])

/-- A blank row as created by insertDimension; the Price cell of a blank row
reads as 0 under `Number`. -/
def blankRow : StoreRow :=
  ⟨"", "", "", "", "", some 0, "", "", "", "", "", "", "", "", "", 0, "",
   "", "", ""⟩

/-! Generic facts about the JS Map embedding `jsMapSet`. -/

theorem jsMapSet_find {α : Type} (f : α → String) (acc : List α) (x : α)
    (id : String) :
    (jsMapSet f acc x).find? (fun a => f a == id) =
      if f x = id then some x else acc.find? (fun a => f a == id) := by
  induction acc with
  | nil => by_cases h : f x = id <;> simp [jsMapSet, List.find?_cons, h]
  | cons a as ih =>
      by_cases hax : f a = f x
      · have hb : (f a == f x) = true := by simpa using hax
        simp only [jsMapSet, hb, if_true]
        by_cases h : f x = id
        · have hxb : (f x == id) = true := by simpa using h
          simp [List.find?_cons, hxb, h]
        · have hxb : (f x == id) = false := by simpa using h
          have hfa : ¬ f a = id := fun hc => h (hax.symm.trans hc)
          have hab : (f a == id) = false := by simpa using hfa
          simp [List.find?_cons, hxb, hab, h]
      · have hb : (f a == f x) = false := by simpa using hax
        simp only [jsMapSet, hb, Bool.false_eq_true, if_false]
        by_cases hA : f a = id
        · have hA2 : (f a == id) = true := by simpa using hA
          have hx : ¬ f x = id := fun hc => hax (hA.trans hc.symm)
          simp [List.find?_cons, hA2, hx]
        · have hA2 : (f a == id) = false := by simpa using hA
          simp [List.find?_cons, hA2, ih]

theorem foldl_jsMapSet_find {α : Type} (f : α → String) (L : List α)
    (acc : List α) (id : String) :
    (L.foldl (jsMapSet f) acc).find? (fun a => f a == id) =
      (L.reverse.find? (fun a => f a == id)).or
        (acc.find? (fun a => f a == id)) := by
  induction L generalizing acc with
  | nil => simp
  | cons l ls ih =>
      simp only [List.foldl_cons, List.reverse_cons, List.find?_append]
      rw [ih, jsMapSet_find]
      cases hr : ls.reverse.find? (fun a => f a == id) with
      | some v => simp
      | none => by_cases h : f l = id <;> simp [List.find?_cons, h]

theorem jsMapSet_mem {α : Type} (f : α → String) (acc : List α) (x : α) :
    ∀ y ∈ jsMapSet f acc x, y ∈ acc ∨ y = x := by
  induction acc with
  | nil =>
      intro y hy
      simp only [jsMapSet, List.mem_singleton] at hy
      exact Or.inr hy
  | cons a as ih =>
      intro y hy
      by_cases hax : f a = f x
      · have hb : (f a == f x) = true := by simpa using hax
        simp only [jsMapSet, hb, if_true, List.mem_cons] at hy
        rcases hy with h | h
        · exact Or.inr h
        · exact Or.inl (List.mem_cons.mpr (Or.inr h))
      · have hb : (f a == f x) = false := by simpa using hax
        simp only [jsMapSet, hb, Bool.false_eq_true, if_false,
          List.mem_cons] at hy
        rcases hy with h | h
        · exact Or.inl (List.mem_cons.mpr (Or.inl h))
        · rcases ih y h with h2 | h2
          · exact Or.inl (List.mem_cons.mpr (Or.inr h2))
          · exact Or.inr h2

theorem jsMapSet_keys_subset {α : Type} (f : α → String) (acc : List α)
    (x : α) : ∀ k ∈ (jsMapSet f acc x).map f, k ∈ f x :: acc.map f := by
  intro k hk
  rcases List.mem_map.mp hk with ⟨y, hy, hky⟩
  rcases jsMapSet_mem f acc x y hy with h | h
  · exact List.mem_cons.mpr (Or.inr (hky ▸ List.mem_map.mpr ⟨y, h, rfl⟩))
  · subst h
    exact List.mem_cons.mpr (Or.inl hky.symm)

theorem jsMapSet_keys_nodup {α : Type} (f : α → String) (acc : List α) (x : α)
    (h : (acc.map f).Nodup) : ((jsMapSet f acc x).map f).Nodup := by
  induction acc with
  | nil => simp [jsMapSet]
  | cons a as ih =>
      rw [List.map_cons, List.nodup_cons] at h
      by_cases hax : f a = f x
      · have hb : (f a == f x) = true := by simpa using hax
        simp only [jsMapSet, hb, if_true, List.map_cons, List.nodup_cons]
        exact ⟨hax ▸ h.1, h.2⟩
      · have hb : (f a == f x) = false := by simpa using hax
        simp only [jsMapSet, hb, Bool.false_eq_true, if_false, List.map_cons,
          List.nodup_cons]
        refine ⟨fun hmem => ?_, ih h.2⟩
        rcases List.mem_cons.mp (jsMapSet_keys_subset f as x (f a) hmem) with
          h2 | h2
        · exact hax h2
        · exact h.1 h2

theorem foldl_jsMapSet_keys_nodup {α : Type} (f : α → String) (L : List α)
    (acc : List α) (h : (acc.map f).Nodup) :
    ((L.foldl (jsMapSet f) acc).map f).Nodup := by
  induction L generalizing acc with
  | nil => exact h
  | cons l ls ih => exact ih _ (jsMapSet_keys_nodup f acc l h)

theorem foldl_jsMapSet_mem {α : Type} (f : α → String) (L : List α)
    (acc : List α) :
    ∀ x ∈ L.foldl (jsMapSet f) acc, x ∈ acc ∨ x ∈ L := by
  induction L generalizing acc with
  | nil => intro x hx; exact Or.inl hx
  | cons l ls ih =>
      intro x hx
      rcases ih (jsMapSet f acc l) x hx with h | h
      · rcases jsMapSet_mem f acc l x h with h2 | h2
        · exact Or.inl h2
        · exact Or.inr (List.mem_cons.mpr (Or.inl h2))
      · exact Or.inr (List.mem_cons.mpr (Or.inr h))

/-- In a list whose keys are pairwise distinct, searching for the key of a
member finds exactly that member. -/
theorem find_of_keys_nodup {α κ : Type} [BEq κ] [LawfulBEq κ] (f : α → κ)
    (xs : List α) (x : α) (hnd : (xs.map f).Nodup) (hx : x ∈ xs) :
    xs.find? (fun a => f a == f x) = some x := by
  induction xs with
  | nil => cases hx
  | cons a as ih =>
      rw [List.map_cons, List.nodup_cons] at hnd
      rcases List.mem_cons.mp hx with h | h
      · subst h
        simp [List.find?_cons]
      · have hne : ¬ f a = f x := fun he => hnd.1 (he ▸ List.mem_map.mpr ⟨x, h, rfl⟩)
        have hb : (f a == f x) = false := by simpa using hne
        simp [List.find?_cons, hb, ih hnd.2 h]

theorem foldl_recStep (E : List ExistingEntry) (L : List ListingItem)
    (acc : WriteResult) :
    L.foldl (recStep E) acc =
      { acc with newRows := acc.newRows ++ newOf L E,
                 updates := acc.updates ++ updOf L E,
                 added := acc.added + (newOf L E).length,
                 updated := acc.updated + (updOf L E).length,
                 unchanged := acc.unchanged + unchCount L E } := by
  induction L generalizing acc with
  | nil => simp [newOf, updOf, unchCount]
  | cons l ls ih =>
      rw [List.foldl_cons, ih]
      cases he : findEntry E l.id with
      | some e =>
          by_cases hc : hasChanges e.row l
          · simp [recStep, he, hc, newOf, updOf, unchCount, List.filter_cons,
                  List.filterMap_cons, List.countP_cons]
            omega
          · simp [recStep, he, hc, newOf, updOf, unchCount, List.filter_cons,
                  List.filterMap_cons, List.countP_cons]
            omega
      | none =>
          simp [recStep, he, newOf, updOf, unchCount, List.filter_cons,
                List.filterMap_cons, List.countP_cons]
          omega

theorem foldl_inactStep (seen : List String) (E : List ExistingEntry)
    (acc : WriteResult) :
    E.foldl (inactStep seen) acc =
      { acc with inactivates := acc.inactivates ++ inactOf E seen,
                 inactive := acc.inactive + (inactOf E seen).length } := by
  induction E generalizing acc with
  | nil => simp [inactOf]
  | cons e es ih =>
      rw [List.foldl_cons, ih]
      by_cases hp : e.id ∉ seen ∧ e.row.status = "Active"
      · have hb : (!(seen.contains e.id) && (e.row.status == "Active")) = true := by
          simp [hp.1, hp.2]
        simp [inactStep, hb, inactOf, List.filterMap_cons, hp.1, hp.2]
        omega
      · rcases not_and_or.mp hp with h | h
        · have h2 : e.id ∈ seen := not_not.mp h
          have hb : (!(seen.contains e.id) && (e.row.status == "Active")) = false := by
            simp [h2]
          simp [inactStep, hb, inactOf, List.filterMap_cons, h2]
        · have hb : (!(seen.contains e.id) && (e.row.status == "Active")) = false := by
            simp [h]
          simp [inactStep, hb, inactOf, List.filterMap_cons, h]

/-- The decision phase in closed form: inserts, updates and retirements are
exactly the filtrations `newOf`, `updOf` and `inactOf`, and the counters are
their lengths. -/
theorem reconcile_eq (L : List ListingItem) (E : List ExistingEntry) :
    reconcile L E =
      ⟨newOf L E, updOf L E, inactOf E (L.map (fun l => l.id)),
       (newOf L E).length, (updOf L E).length, unchCount L E,
       (inactOf E (L.map (fun l => l.id))).length⟩ := by
  unfold reconcile
  rw [foldl_recStep, foldl_inactStep]
  simp

/-! Deduplication facts. -/

theorem dedupeById_find (B : List ListingItem) (id : String) :
    (dedupeById B).find? (fun l => l.id == id) =
      B.reverse.find? (fun l => l.id == id) := by
  have h := foldl_jsMapSet_find (fun l => l.id) B [] id
  simpa [dedupeById] using h

theorem dedupeById_ids_nodup (B : List ListingItem) :
    ((dedupeById B).map (fun l => l.id)).Nodup :=
  foldl_jsMapSet_keys_nodup (fun l => l.id) B [] (by simp)

theorem dedupeById_subset (B : List ListingItem) :
    ∀ l ∈ dedupeById B, l ∈ B := by
  intro l hl
  rcases foldl_jsMapSet_mem (fun l => l.id) B []
      l (by simpa [dedupeById] using hl) with h | h
  · cases h
  · exact h

theorem filter_key_length {α κ : Type} [BEq κ] [LawfulBEq κ] (f : α → κ)
    (xs : List α) (k : κ) (hnd : (xs.map f).Nodup) :
    (xs.filter (fun a => f a == k)).length = if k ∈ xs.map f then 1 else 0 := by
  induction xs with
  | nil => simp
  | cons a as ih =>
      rw [List.map_cons, List.nodup_cons] at hnd
      by_cases h : f a = k
      · have hb : (f a == k) = true := by simpa using h
        have hnot : k ∉ as.map f := h ▸ hnd.1
        have hzero : (as.filter (fun a => f a == k)).length = 0 := by
          rw [ih hnd.2]
          simp [hnot]
        simp [List.filter_cons, hb, hzero, h]
      · have hb : (f a == k) = false := by
          simpa using h
        have hmem : (k ∈ f a :: as.map f) ↔ (k ∈ as.map f) := by
          simp only [List.mem_cons]
          have : ¬ k = f a := fun hc => h hc.symm
          tauto
        rw [List.map_cons]
        rw [List.filter_cons]
        simp only [hb, Bool.false_eq_true, if_false]
        rw [ih hnd.2]
        by_cases hk : k ∈ as.map f
        · simp [hk, hmem.mpr hk]
        · have hk2 : k ∉ f a :: as.map f := fun hc => hk (hmem.mp hc)
          simp [hk, hk2]

theorem dedupeById_mem_ids (B : List ListingItem) (id : String) :
    (id ∈ (dedupeById B).map (fun l => l.id)) ↔
      (id ∈ B.map (fun l => l.id)) := by
  constructor
  · intro h
    rcases List.mem_map.mp h with ⟨l, hl, hid⟩
    exact List.mem_map.mpr ⟨l, dedupeById_subset B l hl, hid⟩
  · intro h
    rcases List.mem_map.mp h with ⟨l, hl, hid⟩
    have h1 : ∃ x ∈ B.reverse, (x.id == id) = true :=
      ⟨l, List.mem_reverse.mpr hl, by simp [hid]⟩
    have h2 : ((dedupeById B).find? (fun l => l.id == id)).isSome := by
      rw [dedupeById_find]
      exact List.find?_isSome.mpr h1
    rcases Option.isSome_iff_exists.mp h2 with ⟨x, hx⟩
    have hx1 := List.mem_of_find?_eq_some hx
    have hx2 : x.id = id := by simpa using List.find?_some hx
    exact List.mem_map.mpr ⟨x, hx1, hx2⟩

/-- C7: de-duplication keeps exactly one record per id and that record carries
the values of the last occurrence of the id in crawl order (searching the
reversed batch returns the same record). -/
theorem dedupe_last_wins (B : List ListingItem) (id : String) :
    ((dedupeById B).filter (fun l => l.id == id)).length =
      (if id ∈ B.map (fun l => l.id) then 1 else 0) ∧
    (dedupeById B).find? (fun l => l.id == id) =
      B.reverse.find? (fun l => l.id == id) := by
  refine ⟨?_, dedupeById_find B id⟩
  have h1 := filter_key_length (fun l : ListingItem => l.id) (dedupeById B) id
    (dedupeById_ids_nodup B)
  by_cases h : id ∈ B.map (fun l => l.id)
  · have h2 : id ∈ (dedupeById B).map (fun l => l.id) :=
      (dedupeById_mem_ids B id).mpr h
    simp only [h1]
    simp [h, h2]
  · have h2 : id ∉ (dedupeById B).map (fun l => l.id) :=
      fun hc => h ((dedupeById_mem_ids B id).mp hc)
    simp only [h1]
    simp [h, h2]

/-- C1 counterexample: the snapshot row A is sourced from query Q1 and Active;
the de-duplicated batch was crawled for query Q2 and does not contain id A;
the claim says A must not be retired, but the reconciliation retires it: the
retirement loop never consults the Source URL. -/
theorem retirement_crossquery_counterexample :
    rowA.sourceUrl = "Q1" ∧ rowA.status = "Active" ∧
    listB.sourceUrl = "Q2" ∧ listB.id ≠ "A" ∧
    (reconcile (dedupeById [listB]) [entryA]).inactivates = [1] ∧
    (reconcile (dedupeById [listB]) [entryA]).inactive = 1 := by
  decide

/-- C1 amended: an id present in the snapshot with status Active and absent
from the de-duplicated batch is retired unconditionally — the source query of
the row and of the batch play no role (they are fully unconstrained here). -/
theorem retirement_ignores_query (L : List ListingItem)
    (E : List ExistingEntry) (e : ExistingEntry) (he : e ∈ E)
    (hact : e.row.status = "Active")
    (habs : e.id ∉ L.map (fun l => l.id)) :
    e.rowIndex ∈ (reconcile L E).inactivates := by
  rw [reconcile_eq]
  refine List.mem_filterMap.mpr ⟨e, he, ?_⟩
  simp [habs, hact]

/-- Witness for the amended C1 theorem at a concrete input. -/
theorem retirement_ignores_query_witness :
    entryA ∈ [entryA] ∧ entryA.row.status = "Active" ∧
    entryA.id ∉ (dedupeById [listB]).map (fun l => l.id) ∧
    entryA.rowIndex ∈ (reconcile (dedupeById [listB]) [entryA]).inactivates :=
  ⟨by decide, by decide, by decide,
   retirement_ignores_query (dedupeById [listB]) [entryA] entryA
     (by decide) (by decide) (by decide)⟩

/-- C2 counterexample: the stored row and the batch record agree on every
compared field value (both prices are NaN) and differ only in the view count,
yet the record classifies as an update, not unchanged: the JS strict
inequality used on Price treats NaN as different from itself. -/
theorem viewcount_only_nan_counterexample :
    rowN.title = listN.title ∧ rowN.price = listN.priceNumber ∧
    rowN.propertyType = listN.propertyType ∧ rowN.size = listN.size ∧
    rowN.floor = listN.floor ∧ rowN.location = listN.location ∧
    rowN.metroDistance = listN.metroDistance ∧ rowN.tags = tagsStr listN ∧
    rowN.agentType = listN.agentType ∧ rowN.agentName = listN.agentName ∧
    rowN.updateInfo = listN.updateInfo ∧ rowN.status = "Active" ∧
    rowN.views ≠ listN.views ∧
    hasChanges rowN listN = true ∧
    (reconcile [listN] [⟨"N", rowN, 1⟩]).updated = 1 ∧
    (reconcile [listN] [⟨"N", rowN, 1⟩]).unchanged = 0 := by
  decide

/-- C2 amended: when every compared field agrees and the stored price is an
actual number (not NaN), a record differing only in the view count classifies
as unchanged and produces no write; and whenever the comparison reports a
change (any differing compared field, or a stored status other than Active),
the record classifies as an update whose write refreshes all compared fields
plus the view count and Source URL, sets Last Updated to now and Status to
Active. -/
theorem change_detection (r : StoreRow) (l : ListingItem) (i : Nat)
    (now : String) :
    ((r.title = l.title ∧ r.price = l.priceNumber ∧ l.priceNumber ≠ none ∧
      r.propertyType = l.propertyType ∧ r.size = l.size ∧ r.floor = l.floor ∧
      r.location = l.location ∧ r.metroDistance = l.metroDistance ∧
      r.tags = tagsStr l ∧ r.agentType = l.agentType ∧
      r.agentName = l.agentName ∧ r.updateInfo = l.updateInfo ∧
      r.status = "Active") →
      reconcile [l] [⟨l.id, r, i⟩] = ⟨[], [], [], 0, 0, 1, 0⟩) ∧
    (hasChanges r l = true →
      reconcile [l] [⟨l.id, r, i⟩] = ⟨[], [(i, l)], [], 0, 1, 0, 0⟩ ∧
      applyUpdate r l now =
        ⟨r.mark, r.rating, r.remarks, r.propertyId, l.title, l.priceNumber,
         l.propertyType, l.size, l.floor, l.location, l.metroDistance,
         tagsStr l, l.agentType, l.agentName, l.updateInfo, l.views,
         l.sourceUrl, r.firstSeen, now, "Active"⟩) := by
  have hfe : findEntry [(⟨l.id, r, i⟩ : ExistingEntry)] l.id =
      some ⟨l.id, r, i⟩ := by
    simp [findEntry, List.find?_cons]
  constructor
  · rintro ⟨h1, h2, h3, h4, h5, h6, h7, h8, h9, h10, h11, h12, h13⟩
    have hch : hasChanges r l = false := by
      cases hn : l.priceNumber with
      | none => exact absurd hn h3
      | some v =>
          have h2v : r.price = some v := hn ▸ h2
          simp [hasChanges, h1, h2v, h4, h5, h6, h7, h8, h9, h10, h11, h12,
                h13, numNe, hn]
    rw [reconcile_eq]
    simp [newOf, updOf, unchCount, inactOf, hfe, hch]
  · intro hch
    constructor
    · rw [reconcile_eq]
      simp [newOf, updOf, unchCount, inactOf, hfe, hch]
    · rfl

/-- Witness for the amended C2 theorem at a concrete input. -/
theorem change_detection_witness :
    reconcile [listU] [⟨listU.id, rowU, 1⟩] = ⟨[], [], [], 0, 0, 1, 0⟩ :=
  (change_detection rowU listU 1 "t").1 (by decide)

theorem lastPos_getElem (rows : List StoreRow) (id : String) (k : Nat)
    (r : StoreRow) (h : lastPos rows id = some (k, r)) :
    rows[k]? = some r ∧ r.propertyId = id := by
  induction rows generalizing k with
  | nil => cases h
  | cons a as ih =>
      simp only [lastPos] at h
      cases hl : lastPos as id with
      | some kr =>
          rw [hl] at h
          simp only [Option.some.injEq, Prod.mk.injEq] at h
          obtain ⟨hk, hr⟩ := h
          subst hr
          have := ih kr.1 hl
          rw [← hk]
          simpa [List.getElem?_cons_succ] using this
      | none =>
          rw [hl] at h
          by_cases hpa : a.propertyId = id
          · have hb : (a.propertyId == id) = true := by simpa using hpa
            simp only [hb, if_true, Option.some.injEq, Prod.mk.injEq] at h
            obtain ⟨hk, hr⟩ := h
            subst hr
            rw [← hk]
            simpa using hpa
          · have hb : (a.propertyId == id) = false := by simpa using hpa
            simp [hb] at h

theorem lastPos_eq_none (rows : List StoreRow) (id : String)
    (h : ∀ r ∈ rows, r.propertyId ≠ id) : lastPos rows id = none := by
  induction rows with
  | nil => rfl
  | cons a as ih =>
      have ha : (a.propertyId == id) = false := by
        simpa using h a (List.mem_cons.mpr (Or.inl rfl))
      simp only [lastPos, ih (fun r hr => h r (List.mem_cons.mpr (Or.inr hr))),
        ha]
      simp

theorem findEntry_jsMapSet (acc : List ExistingEntry) (x : ExistingEntry)
    (id : String) :
    findEntry (jsMapSet (fun e => e.id) acc x) id =
      if x.id = id then some x else findEntry acc id := by
  have h := jsMapSet_find (fun e : ExistingEntry => e.id) acc x id
  simpa [findEntry] using h

theorem getExistingGo_find (rows : List StoreRow) (i : Nat)
    (acc : List ExistingEntry) (id : String) (hid : id ≠ "") :
    findEntry (getExistingGo i rows acc) id =
      match lastPos rows id with
      | some kr => some ⟨id, kr.2, i + kr.1 + 1⟩
      | none => findEntry acc id := by
  induction rows generalizing i acc with
  | nil => simp [getExistingGo, lastPos]
  | cons a as ih =>
      simp only [getExistingGo]
      by_cases hpa : a.propertyId = ""
      · have hpb : (a.propertyId == "") = true := by simpa using hpa
        rw [if_pos hpb, ih]
        have hne : (a.propertyId == id) = false := by
          have : ¬ a.propertyId = id := fun hc => hid (hc.symm.trans hpa)
          simpa using this
        simp only [lastPos, hne]
        cases hl : lastPos as id with
        | some kr =>
            simp only [Option.some.injEq, ExistingEntry.mk.injEq, true_and]
            omega
        | none => simp
      · have hpb : (a.propertyId == "") = false := by simpa using hpa
        rw [if_neg (by simp [hpb]), ih]
        cases hl : lastPos as id with
        | some kr =>
            simp only [lastPos, hl, Option.some.injEq, ExistingEntry.mk.injEq,
              true_and]
            omega
        | none =>
            simp only [lastPos, hl]
            rw [findEntry_jsMapSet]
            by_cases hia : a.propertyId = id
            · have hb : (a.propertyId == id) = true := by simpa using hia
              simp [hia, hb]
            · have hb : (a.propertyId == id) = false := by simpa using hia
              simp [hia, hb]

/-- Lookup in getExistingProperties: for a non-empty id it returns the row of
the last occurrence of the id together with its 1-based data row index. -/
theorem findEntry_getExisting (rows : List StoreRow) (id : String)
    (hid : id ≠ "") :
    findEntry (getExisting rows) id =
      (lastPos rows id).map (fun kr => ⟨id, kr.2, kr.1 + 1⟩) := by
  have h := getExistingGo_find rows 0 [] id hid
  rw [getExisting, h]
  cases hl : lastPos rows id with
  | some kr => simp [findEntry]
  | none => simp [findEntry]

theorem getExisting_keys_nodup (rows : List StoreRow) :
    ((getExisting rows).map (fun e => e.id)).Nodup := by
  suffices h : ∀ rs i acc, ((acc.map (fun e : ExistingEntry => e.id)).Nodup) →
      ((getExistingGo i rs acc).map (fun e => e.id)).Nodup by
    exact h rows 0 [] (by simp)
  intro rs
  induction rs with
  | nil => intro i acc h; exact h
  | cons a as ih =>
      intro i acc h
      simp only [getExistingGo]
      by_cases hpa : (a.propertyId == "") = true
      · rw [if_pos hpa]
        exact ih _ _ h
      · rw [if_neg hpa]
        exact ih _ _ (jsMapSet_keys_nodup _ _ _ h)

theorem findEntry_of_mem (E : List ExistingEntry) (e : ExistingEntry)
    (hnd : (E.map (fun e => e.id)).Nodup) (he : e ∈ E) :
    findEntry E e.id = some e := by
  have h := find_of_keys_nodup (fun e : ExistingEntry => e.id) E e hnd he
  simpa [findEntry] using h

/-! Positional facts about the applied snapshot. -/

theorem applyRow_propertyId (res : WriteResult) (now : String) (idx : Nat)
    (r : StoreRow) : (applyRow res now idx r).propertyId = r.propertyId := by
  unfold applyRow
  cases res.updates.find? (fun u => u.1 == idx) with
  | some u => rfl
  | none =>
      by_cases hc : idx ∈ res.inactivates
      · simp [hc, retireRow]
      · simp [hc]

theorem applyRow_frame (res : WriteResult) (now : String) (idx : Nat)
    (r : StoreRow) :
    (applyRow res now idx r).mark = r.mark ∧
    (applyRow res now idx r).rating = r.rating ∧
    (applyRow res now idx r).remarks = r.remarks ∧
    (applyRow res now idx r).firstSeen = r.firstSeen := by
  unfold applyRow
  cases res.updates.find? (fun u => u.1 == idx) with
  | some u => exact ⟨rfl, rfl, rfl, rfl⟩
  | none =>
      by_cases hc : idx ∈ res.inactivates
      · simp [hc, retireRow]
      · simp [hc]

theorem applyTail_getElem (res : WriteResult) (now : String)
    (rows : List StoreRow) (j p : Nat) :
    (applyTail res now j rows)[p]? =
      (rows[p]?).map (applyRow res now (j + p)) := by
  induction rows generalizing j p with
  | nil => simp [applyTail]
  | cons r rs ih =>
      cases p with
      | zero => simp [applyTail]
      | succ q =>
          have hoff : j + 1 + q = j + (q + 1) := by omega
          simp only [applyTail, List.getElem?_cons_succ, ih, hoff]

theorem applyTail_length (res : WriteResult) (now : String)
    (rows : List StoreRow) (j : Nat) :
    (applyTail res now j rows).length = rows.length := by
  induction rows generalizing j with
  | nil => rfl
  | cons r rs ih => simp [applyTail, ih]

theorem lastPos_applyTail (res : WriteResult) (now : String)
    (rows : List StoreRow) (j : Nat) (id : String) :
    lastPos (applyTail res now j rows) id =
      (lastPos rows id).map
        (fun kr => (kr.1, applyRow res now (j + kr.1) kr.2)) := by
  induction rows generalizing j with
  | nil => simp [applyTail, lastPos]
  | cons r rs ih =>
      simp only [applyTail, lastPos, ih]
      cases hl : lastPos rs id with
      | some kr =>
          have hoff : j + 1 + kr.1 = j + (kr.1 + 1) := by omega
          simp [hoff]
      | none =>
          by_cases hp : r.propertyId = id
          · have hb : ((applyRow res now j r).propertyId == id) = true := by
              rw [applyRow_propertyId]
              simpa using hp
            have hb2 : (r.propertyId == id) = true := by simpa using hp
            simp [hb, hb2]
          · have hb : ((applyRow res now j r).propertyId == id) = false := by
              rw [applyRow_propertyId]
              simpa using hp
            have hb2 : (r.propertyId == id) = false := by simpa using hp
            simp [hb, hb2]

theorem lastPos_append (xs ys : List StoreRow) (id : String) :
    lastPos (xs ++ ys) id =
      match lastPos ys id with
      | some kr => some (xs.length + kr.1, kr.2)
      | none => lastPos xs id := by
  induction xs with
  | nil =>
      cases h : lastPos ys id with
      | some kr => simp [h]
      | none => simp [h, lastPos]
  | cons x xs ih =>
      rw [List.cons_append, lastPos, ih]
      cases h : lastPos ys id with
      | some kr =>
          simp only [List.length_cons, Option.some.injEq, Prod.mk.injEq,
            and_true]
          omega
      | none => rfl

theorem mem_sheetIds_of (rows : List StoreRow) (x : StoreRow) (hx : x ∈ rows)
    (hne : x.propertyId ≠ "") : x.propertyId ∈ sheetIds rows := by
  refine List.mem_filterMap.mpr ⟨x, hx, ?_⟩
  have hb : (x.propertyId == "") = false := by simpa using hne
  simp [hb]

theorem sheetIds_cons (a : StoreRow) (as : List StoreRow) :
    sheetIds (a :: as) =
      if a.propertyId = "" then sheetIds as
      else a.propertyId :: sheetIds as := by
  by_cases hpa : a.propertyId = ""
  · have hb : (a.propertyId == "") = true := by simpa using hpa
    simp [sheetIds, List.filterMap_cons, hb, hpa]
  · have hb : (a.propertyId == "") = false := by simpa using hpa
    simp [sheetIds, List.filterMap_cons, hb, hpa]

theorem lastPos_of_nodup (rows : List StoreRow) (p : Nat) (r : StoreRow)
    (hnd : (sheetIds rows).Nodup) (h : rows[p]? = some r)
    (hid : r.propertyId ≠ "") : lastPos rows r.propertyId = some (p, r) := by
  induction rows generalizing p with
  | nil => simp at h
  | cons a as ih =>
      rw [sheetIds_cons] at hnd
      cases p with
      | zero =>
          rw [List.getElem?_cons_zero, Option.some.injEq] at h
          rw [← h] at hid ⊢
          have hnd2 : a.propertyId ∉ sheetIds as ∧ (sheetIds as).Nodup := by
            rw [if_neg hid] at hnd
            exact List.nodup_cons.mp hnd
          have hnone : lastPos as a.propertyId = none := by
            refine lastPos_eq_none as a.propertyId (fun x hx hc => ?_)
            exact hnd2.1
              (hc ▸ mem_sheetIds_of as x hx (fun hx0 => hid (hc.symm.trans hx0)))
          have hb : (a.propertyId == a.propertyId) = true := by simp
          simp [lastPos, hnone, hb]
      | succ q =>
          rw [List.getElem?_cons_succ] at h
          have htail : (sheetIds as).Nodup := by
            by_cases hpa : a.propertyId = ""
            · rwa [if_pos hpa] at hnd
            · rw [if_neg hpa] at hnd
              exact (List.nodup_cons.mp hnd).2
          have hres := ih q htail h
          simp [lastPos, hres]

/-- C6: in the snapshot produced by applying the decisions of the run, every
pre-existing row keeps its caller-owned cells (★ Mark, ★ Rating, ★ Remarks)
and its First Seen value: updates write only columns E to T with a null First
Seen entry, and retirements write only Last Updated and Status, so updates and
retirements leave all four untouched. -/
theorem owned_fields_preserved (L : List ListingItem) (E : List ExistingEntry)
    (rows : List StoreRow) (now : String) (p : Nat) (r : StoreRow)
    (h : rows[p]? = some r) :
    ((applySheet rows (reconcile L E) now)[(reconcile L E).newRows.length + p]?).map
        (fun x => (x.mark, x.rating, x.remarks, x.firstSeen)) =
      some (r.mark, r.rating, r.remarks, r.firstSeen) := by
  rw [applySheet, List.getElem?_append_right (by simp)]
  rw [List.length_map, Nat.add_sub_cancel_left, applyTail_getElem, h]
  obtain ⟨h1, h2, h3, h4⟩ :=
    applyRow_frame (reconcile L E) now (1 + p) r
  simp [h1, h2, h3, h4]

/-- Witness for the C6 theorem at a concrete input that exercises both the
insert path (listB is new) and the retirement path (rowA disappears). -/
theorem owned_fields_preserved_witness :
    ((applySheet [rowA] (reconcile [listB] (getExisting [rowA]))
        "t")[(reconcile [listB] (getExisting [rowA])).newRows.length + 0]?).map
        (fun x => (x.mark, x.rating, x.remarks, x.firstSeen)) =
      some (rowA.mark, rowA.rating, rowA.remarks, rowA.firstSeen) :=
  owned_fields_preserved [listB] (getExisting [rowA]) [rowA] "t" 0 rowA
    (by decide)

theorem beginsWith_self_append (n zs : List Char) :
    beginsWith n (n ++ zs) = true := by
  induction n with
  | nil => rfl
  | cons c cs ih => simp [beginsWith, ih]

theorem listHas_of_head (n l : List Char) (h : beginsWith n l = true) :
    listHas n l = true := by
  cases l with
  | nil => simpa [listHas] using h
  | cons c rest => simp [listHas, h]

theorem listHas_append_right (n xs ys : List Char)
    (h : listHas n ys = true) : listHas n (xs ++ ys) = true := by
  induction xs with
  | nil => simpa using h
  | cons x xs ih => simp [listHas, ih]

/-- The outer wall-clock timeout message always matches the timeout test. -/
theorem isTimeoutMsg_outer (p : Nat) :
    isTimeoutMsg (outerTimeoutMsg p) = true := by
  have hdata : (outerTimeoutMsg p).toList =
      ("Page " ++ toString p).toList ++ (" timed out after 60000ms").toList := by
    simp [outerTimeoutMsg, String.toList, String.data_append]
  rw [isTimeoutMsg, strIncludes, hdata]
  refine listHas_append_right _ _ _ ?_
  decide

/-- C3 evaluated at the failing input: the navigation timeout message does
not contain the lowercase phrase "timed out" that the catch block of crawlUrl
tests for, so the attempt is retried and the second attempt delivers its
records — pagination does not end at the timeout (the claim, the spec and the
source comment on PAGE_RETRY_COUNT, "max retries for non-timeout page
errors", all require the timeout to end the query immediately, which here
would return the empty list).  The outer wall-clock timeout message does
match the test. -/
theorem nav_timeout_retried :
    isTimeoutMsg navTimeoutMsg = false ∧
    isTimeoutMsg (outerTimeoutMsg 1) = true ∧
    attemptPage fetchC3 1 = PageResult.gotItems [itemC3] ∧
    crawlListings fetchC3 = [itemC3] := by
  refine ⟨by decide, isTimeoutMsg_outer 1, by decide, by decide⟩

/-- C4 counterexample: the delay before a retry is the constant base
REQUEST_DELAY_MS = 2000 ms plus the random jitter, identical for attempts 2
and 3 at equal jitter — there is no linear growth in the attempt number, so
the backoff is not linear. -/
theorem page_retry_delay_counterexample :
    pageRetryDelay 2 0 = 2000 ∧ pageRetryDelay 3 0 = 2000 := ⟨rfl, rfl⟩

/-- C4 amended: a page-fetch error other than a timeout is retried up to the
3-attempt budget with a constant base delay of 2000 ms plus random jitter
(not linear backoff); two non-timeout errors followed by a successful third
attempt make the page succeed with the records of that attempt. -/
theorem page_retry (fetch : Nat → Nat → FetchOutcome) (p : Nat)
    (m1 m2 : String) (items : List ListingItem)
    (h1 : fetch p 1 = FetchOutcome.err m1) (t1 : isTimeoutMsg m1 = false)
    (h2 : fetch p 2 = FetchOutcome.err m2) (t2 : isTimeoutMsg m2 = false)
    (h3 : fetch p 3 = FetchOutcome.ok items) (hne : items ≠ []) :
    attemptPage fetch p = PageResult.gotItems items ∧
    (∀ a j, pageRetryDelay a j = 2000 + j) := by
  constructor
  · cases items with
    | nil => exact absurd rfl hne
    | cons i is =>
        unfold attemptPage PAGE_RETRY_COUNT
        simp [attemptsGo, h1, t1, h2, t2, h3]
  · intro a j
    rfl

/-- Witness for the amended C4 theorem at a concrete input. -/
theorem page_retry_witness :
    attemptPage fetchC4 1 = PageResult.gotItems [itemC4] ∧
    (∀ a j, pageRetryDelay a j = 2000 + j) :=
  page_retry fetchC4 1 "net ERR_CONNECTION_RESET" "net ERR_CONNECTION_RESET"
    [itemC4] rfl (by decide) rfl (by decide) rfl (by decide)

theorem digitPrefixVal_eq_none (cs : List Char) :
    digitPrefixVal cs = none ↔ headIsDigit cs = false := by
  cases cs with
  | nil => simp [digitPrefixVal, headIsDigit]
  | cons c cs =>
      by_cases h : c.isDigit
      · simp [digitPrefixVal, List.takeWhile_cons, headIsDigit, h]
      · simp [digitPrefixVal, List.takeWhile_cons, headIsDigit, h]

/-- C10 counterexample: "+1" is a present, truthy price string that does not
begin with a digit after comma removal, yet the extractor produces
priceNumber 1, not NaN — parseInt reads the sign before scanning digits. -/
theorem price_plus_counterexample :
    truthyPrice (PriceField.str "+1") = true ∧
    firstCharIsDigit (stripCommas "+1") = false ∧
    priceNumberOf (PriceField.str "+1") = some 1 := by
  decide

/-- C10 amended: for a present, truthy string price the extractor computes JS
parseInt of the comma-stripped string, and that parse yields NaN exactly when
no digit follows the leading whitespace and optional sign (so a non-digit
leading character other than whitespace or a sign gives NaN, while strings
like "+1" still parse); the documented default 0 is applied exactly when the
price field is absent or falsy. -/
theorem price_parse (s : String) (p : PriceField) :
    (s ≠ "" → priceNumberOf (PriceField.str s) = parseIntJS10 (stripCommas s)) ∧
    (parseIntJS10 s = none ↔ noDigitToParse s = true) ∧
    (truthyPrice p = false → priceNumberOf p = some 0) := by
  refine ⟨?_, ?_, ?_⟩
  · intro hs
    have hb : (s != "") = true := by simpa using hs
    simp [priceNumberOf, truthyPrice, priceFieldStr, hb]
  · have hmap : ∀ (o : Option Nat) (f : Nat → Int),
        o.map f = none ↔ o = none := by
      intro o f
      cases o <;> simp
    unfold parseIntJS10 noDigitToParse parseChars noDigitChars
    split
    · rw [hmap, digitPrefixVal_eq_none]
      simp
    · rw [hmap, digitPrefixVal_eq_none]
      simp
    · rw [hmap, digitPrefixVal_eq_none]
      simp
  · intro hf
    simp [priceNumberOf, hf]

/-- Witness for the amended C10 theorem at concrete inputs: a non-numeric
price string and an absent price field. -/
theorem price_parse_witness :
    priceNumberOf (PriceField.str "面議") = parseIntJS10 (stripCommas "面議") ∧
    priceNumberOf PriceField.absent = some 0 :=
  ⟨(price_parse "面議" PriceField.absent).1 (by decide),
   (price_parse "面議" PriceField.absent).2.2 (by decide)⟩

/-- C9: with an empty crawled batch the reconciliation computes no inserts
and no updates, and every snapshot row with a non-empty Property ID and
Status Active is marked Inactive with Last Updated set to now — nothing
distinguishes a wholly failed crawl, whose batch is empty, from a genuinely
empty source; indeed a crawl whose very first page yields no records (a
blocked page surfaces as an empty extraction) returns the empty batch and
the run completes. -/
theorem empty_batch_retires_all (rows : List StoreRow) (now : String)
    (p : Nat) (r : StoreRow) (hnd : (sheetIds rows).Nodup)
    (hr : rows[p]? = some r) (hid : r.propertyId ≠ "")
    (hact : r.status = "Active") :
    (reconcile [] (getExisting rows)).added = 0 ∧
    (reconcile [] (getExisting rows)).updated = 0 ∧
    (reconcile [] (getExisting rows)).newRows = [] ∧
    (reconcile [] (getExisting rows)).updates = [] ∧
    (applySheet rows (reconcile [] (getExisting rows)) now)[p]? =
      some (retireRow r now) ∧
    (∀ fetch : Nat → Nat → FetchOutcome, fetch 1 1 = FetchOutcome.ok [] →
      crawlListings fetch = []) := by
  have hres := reconcile_eq [] (getExisting rows)
  have hnew : (reconcile [] (getExisting rows)).newRows = [] := by
    rw [hres]
    simp [newOf]
  have hupd : (reconcile [] (getExisting rows)).updates = [] := by
    rw [hres]
    simp [updOf]
  refine ⟨by rw [hres]; simp [newOf], by rw [hres]; simp [updOf],
    hnew, hupd, ?_, ?_⟩
  · have hentry : findEntry (getExisting rows) r.propertyId =
        some ⟨r.propertyId, r, p + 1⟩ := by
      rw [findEntry_getExisting rows r.propertyId hid,
          lastPos_of_nodup rows p r hnd hr hid]
      rfl
    have hmem : (⟨r.propertyId, r, p + 1⟩ : ExistingEntry) ∈
        getExisting rows :=
      List.mem_of_find?_eq_some hentry
    have hinact : (p + 1) ∈ (reconcile [] (getExisting rows)).inactivates := by
      rw [hres]
      refine List.mem_filterMap.mpr ⟨⟨r.propertyId, r, p + 1⟩, hmem, ?_⟩
      simp [hact]
    rw [applySheet, hnew]
    rw [List.map_nil, List.nil_append, applyTail_getElem, hr]
    have happ : applyRow (reconcile [] (getExisting rows)) now (1 + p) r =
        retireRow r now := by
      unfold applyRow
      rw [hupd]
      have h1p : 1 + p = p + 1 := Nat.add_comm 1 p
      rw [h1p]
      simp [hinact]
    simp [happ]
  · intro fetch hf
    have hap : attemptPage fetch 1 = PageResult.stopEmpty := by
      unfold attemptPage PAGE_RETRY_COUNT
      simp [attemptsGo, hf]
    show crawlGo fetch 10 1 [] = []
    rw [show (10 : Nat) = 9 + 1 from rfl]
    simp [crawlGo, hap, MAX_ITEMS_PER_URL]

/-- Witness for the C9 theorem at a concrete input: a single Active row with
a non-empty id, and the everywhere-empty fetch trace. -/
theorem empty_batch_retires_all_witness :
    (reconcile [] (getExisting [rowA])).added = 0 ∧
    (reconcile [] (getExisting [rowA])).updated = 0 ∧
    (reconcile [] (getExisting [rowA])).newRows = [] ∧
    (reconcile [] (getExisting [rowA])).updates = [] ∧
    (applySheet [rowA] (reconcile [] (getExisting [rowA])) "t")[0]? =
      some (retireRow rowA "t") ∧
    (∀ fetch : Nat → Nat → FetchOutcome, fetch 1 1 = FetchOutcome.ok [] →
      crawlListings fetch = []) :=
  empty_batch_retires_all [rowA] "t" 0 rowA (by decide) (by decide)
    (by decide) (by decide)

theorem setCell0 (r : StoreRow) (x : String) :
    setCell r 0 (.s x) = { r with mark := x } := rfl

theorem setCell1 (r : StoreRow) (x : String) :
    setCell r 1 (.s x) = { r with rating := x } := rfl

theorem setCell2 (r : StoreRow) (x : String) :
    setCell r 2 (.s x) = { r with remarks := x } := rfl

theorem setCell3 (r : StoreRow) (x : String) :
    setCell r 3 (.s x) = { r with propertyId := x } := rfl

theorem setCell4h (r : StoreRow) (x y : String) :
    setCell r 4 (.hyper x y) = { r with title := y } := rfl

theorem setCell5 (r : StoreRow) (x : JsNum) :
    setCell r 5 (.n x) = { r with price := x } := rfl

theorem setCell6 (r : StoreRow) (x : String) :
    setCell r 6 (.s x) = { r with propertyType := x } := rfl

theorem setCell7 (r : StoreRow) (x : String) :
    setCell r 7 (.s x) = { r with size := x } := rfl

theorem setCell8 (r : StoreRow) (x : String) :
    setCell r 8 (.s x) = { r with floor := x } := rfl

theorem setCell9 (r : StoreRow) (x : String) :
    setCell r 9 (.s x) = { r with location := x } := rfl

theorem setCell10 (r : StoreRow) (x : String) :
    setCell r 10 (.s x) = { r with metroDistance := x } := rfl

theorem setCell11 (r : StoreRow) (x : String) :
    setCell r 11 (.s x) = { r with tags := x } := rfl

theorem setCell12 (r : StoreRow) (x : String) :
    setCell r 12 (.s x) = { r with agentType := x } := rfl

theorem setCell13 (r : StoreRow) (x : String) :
    setCell r 13 (.s x) = { r with agentName := x } := rfl

theorem setCell14 (r : StoreRow) (x : String) :
    setCell r 14 (.s x) = { r with updateInfo := x } := rfl

theorem setCell15 (r : StoreRow) (x : Int) :
    setCell r 15 (.i x) = { r with views := x } := rfl

theorem setCell16 (r : StoreRow) (x : String) :
    setCell r 16 (.s x) = { r with sourceUrl := x } := rfl

theorem setCell17 (r : StoreRow) (x : String) :
    setCell r 17 (.s x) = { r with firstSeen := x } := rfl

theorem setCell18 (r : StoreRow) (x : String) :
    setCell r 18 (.s x) = { r with lastUpdated := x } := rfl

theorem setCell19 (r : StoreRow) (x : String) :
    setCell r 19 (.s x) = { r with status := x } := rfl

/-- C8: the writer performs exactly one positional insert batch (when there
are new rows) and at most one further batch save for all updates and
retirements together; in the second batch every row index is the index
computed against the pre-insertion snapshot plus N, the number of inserted
rows; index idx + N of the post-insertion sheet addresses exactly the row
that index idx addressed before the insertion; and composing the cell writes
of one update, one retirement, or one inserted row reproduces the
corresponding row transformation. -/
theorem writer_shift_batches (L : List ListingItem) (E : List ExistingEntry)
    (rows : List StoreRow) (now : String) :
    ((sheetOps (reconcile L E) now).countP isInsertOp =
      if (reconcile L E).newRows.isEmpty then 0 else 1) ∧
    ((sheetOps (reconcile L E) now).countP isSaveOp =
      (if (reconcile L E).newRows.isEmpty then 0 else 1) +
      (if (reconcile L E).updates.isEmpty &&
          (reconcile L E).inactivates.isEmpty then 0 else 1)) ∧
    ((reconcile L E).newRows ≠ [] →
      sheetOps (reconcile L E) now =
        SheetOp.insertRowsTop (reconcile L E).newRows.length ::
        SheetOp.saveCells (newRowWrites (reconcile L E).newRows now) ::
        (if (reconcile L E).updates.isEmpty &&
            (reconcile L E).inactivates.isEmpty then []
         else [SheetOp.saveCells
           ((((reconcile L E).updates.map
               (fun u => (u.1 + (reconcile L E).newRows.length, u.2))).bind
              (fun u => rowUpdateWrites u.1 u.2 now)) ++
            (((reconcile L E).inactivates.map
               (fun i => i + (reconcile L E).newRows.length)).bind
              (fun i => retireWrites i now)))])) ∧
    (∀ idx, 1 ≤ idx →
      ((reconcile L E).newRows.map (insertRowOf now) ++
        rows)[idx + (reconcile L E).newRows.length - 1]? = rows[idx - 1]?) ∧
    (∀ r l ri, (rowUpdateWrites ri l now).foldl
        (fun row w => setCell row w.2.1 w.2.2) r = applyUpdate r l now) ∧
    (∀ r ri, (retireWrites ri now).foldl
        (fun row w => setCell row w.2.1 w.2.2) r = retireRow r now) ∧
    (∀ l, (newRowData l now).enum.foldl
        (fun row jv => setCell row jv.1 jv.2) blankRow = insertRowOf now l) := by
  refine ⟨?_, ?_, ?_, ?_, ?_, ?_, ?_⟩
  · by_cases hn : (reconcile L E).newRows = [] <;>
      by_cases hu : (reconcile L E).updates = [] <;>
      by_cases hi : (reconcile L E).inactivates = [] <;>
      simp [sheetOps, hn, hu, hi, isInsertOp, isSaveOp, List.countP_cons,
        List.countP_append, List.isEmpty_iff, shiftAmount]
  · by_cases hn : (reconcile L E).newRows = [] <;>
      by_cases hu : (reconcile L E).updates = [] <;>
      by_cases hi : (reconcile L E).inactivates = [] <;>
      simp [sheetOps, hn, hu, hi, isInsertOp, isSaveOp, List.countP_cons,
        List.countP_append, List.isEmpty_iff, shiftAmount]
  · intro hne
    have hs : shiftAmount (reconcile L E) = (reconcile L E).newRows.length := by
      simp [shiftAmount, List.isEmpty_iff, hne]
    by_cases hu : (reconcile L E).updates = [] <;>
      by_cases hi : (reconcile L E).inactivates = [] <;>
      simp [sheetOps, hs, hne, hu, hi, List.isEmpty_iff]
  · intro idx hidx
    have hlen : ((reconcile L E).newRows.map (insertRowOf now)).length =
        (reconcile L E).newRows.length := by
      simp
    have h1 : ((reconcile L E).newRows.map (insertRowOf now)).length ≤
        idx + (reconcile L E).newRows.length - 1 := by
      rw [hlen]
      omega
    rw [List.getElem?_append_right h1, hlen]
    congr 1
    omega
  · intro r l ri
    have hw : rowUpdateWrites ri l now =
        [(ri, 4, .hyper l.url l.title), (ri, 5, .n l.priceNumber),
         (ri, 6, .s l.propertyType), (ri, 7, .s l.size), (ri, 8, .s l.floor),
         (ri, 9, .s l.location), (ri, 10, .s l.metroDistance),
         (ri, 11, .s (tagsStr l)), (ri, 12, .s l.agentType),
         (ri, 13, .s l.agentName), (ri, 14, .s l.updateInfo),
         (ri, 15, .i l.views), (ri, 16, .s l.sourceUrl), (ri, 18, .s now),
         (ri, 19, .s "Active")] := rfl
    rw [hw]
    simp only [List.foldl_cons, List.foldl_nil, setCell4h, setCell5, setCell6,
      setCell7, setCell8, setCell9, setCell10, setCell11, setCell12,
      setCell13, setCell14, setCell15, setCell16, setCell18, setCell19]
    rfl
  · intro r ri
    rfl
  · intro l
    have he : (newRowData l now).enum =
        [(0, .s ""), (1, .s ""), (2, .s ""), (3, .s l.id),
         (4, .hyper l.url l.title), (5, .n l.priceNumber),
         (6, .s l.propertyType), (7, .s l.size), (8, .s l.floor),
         (9, .s l.location), (10, .s l.metroDistance), (11, .s (tagsStr l)),
         (12, .s l.agentType), (13, .s l.agentName), (14, .s l.updateInfo),
         (15, .i l.views), (16, .s l.sourceUrl), (17, .s now), (18, .s now),
         (19, .s "Active")] := rfl
    rw [he]
    simp only [List.foldl_cons, List.foldl_nil, setCell0, setCell1, setCell2,
      setCell3, setCell4h, setCell5, setCell6, setCell7, setCell8, setCell9,
      setCell10, setCell11, setCell12, setCell13, setCell14, setCell15,
      setCell16, setCell17, setCell18, setCell19]
    rfl

/-- Witness for the C8 theorem at a concrete input with one insert (listB is
new) and one retirement (rowA disappears). -/
theorem writer_shift_batches_witness :
    ((sheetOps (reconcile [listB] (getExisting [rowA])) "t").countP
      isInsertOp =
      if (reconcile [listB] (getExisting [rowA])).newRows.isEmpty then 0
      else 1) ∧
    (((reconcile [listB] (getExisting [rowA])).newRows.map (insertRowOf "t") ++
        [rowA])[1 + (reconcile [listB] (getExisting [rowA])).newRows.length -
          1]? = [rowA][1 - 1]?) :=
  ⟨(writer_shift_batches [listB] (getExisting [rowA]) [rowA] "t").1,
   (writer_shift_batches [listB] (getExisting [rowA]) [rowA] "t").2.2.2.1 1
     (by decide)⟩

/-! Infrastructure for the idempotence of reconciliation. -/

theorem nodup_map_inj {α β : Type} (f : α → β) (L : List α)
    (h : (L.map f).Nodup) : ∀ a ∈ L, ∀ b ∈ L, f a = f b → a = b := by
  induction L with
  | nil => intro a ha; cases ha
  | cons x xs ih =>
      rw [List.map_cons, List.nodup_cons] at h
      intro a ha b hb hab
      rcases List.mem_cons.mp ha with ha1 | ha1 <;>
        rcases List.mem_cons.mp hb with hb1 | hb1
      · rw [ha1, hb1]
      · exact absurd (List.mem_map.mpr ⟨b, hb1, (ha1 ▸ hab).symm⟩) h.1
      · exact absurd (List.mem_map.mpr ⟨a, ha1, (hb1 ▸ hab)⟩) h.1
      · exact ih h.2 a ha1 b hb1 hab

theorem updOf_mem_elim (L : List ListingItem) (rows : List StoreRow)
    (hids : ∀ l ∈ L, l.id ≠ "") (x : Nat × ListingItem)
    (hx : x ∈ updOf L (getExisting rows)) :
    ∃ l, l ∈ L ∧ ∃ k r0, lastPos rows l.id = some (k, r0) ∧
      hasChanges r0 l = true ∧ x = (k + 1, l) := by
  rcases List.mem_filterMap.mp hx with ⟨l, hl, hg⟩
  refine ⟨l, hl, ?_⟩
  rw [findEntry_getExisting rows l.id (hids l hl)] at hg
  cases hlp : lastPos rows l.id with
  | none => rw [hlp] at hg; cases hg
  | some kr =>
      rw [hlp] at hg
      simp only [Option.map_some'] at hg
      by_cases hch : hasChanges kr.2 l
      · simp only [hch, if_true] at hg
        obtain rfl := Option.some.inj hg
        exact ⟨kr.1, kr.2, rfl, hch, rfl⟩
      · simp [hch] at hg

theorem updOf_mem_intro (L : List ListingItem) (rows : List StoreRow)
    (l : ListingItem) (hl : l ∈ L) (hid : l.id ≠ "") (k : Nat) (r0 : StoreRow)
    (hlp : lastPos rows l.id = some (k, r0))
    (hch : hasChanges r0 l = true) :
    (k + 1, l) ∈ updOf L (getExisting rows) := by
  refine List.mem_filterMap.mpr ⟨l, hl, ?_⟩
  rw [findEntry_getExisting rows l.id hid, hlp]
  simp [hch]

theorem updOf_keys_nodup (L : List ListingItem) (rows : List StoreRow)
    (hL : (L.map (fun l => l.id)).Nodup) (hids : ∀ l ∈ L, l.id ≠ "") :
    ((updOf L (getExisting rows)).map Prod.fst).Nodup := by
  have hLnd : L.Nodup := List.Nodup.of_map _ hL
  have h1 : (updOf L (getExisting rows)).Nodup := by
    refine List.Nodup.filterMap ?_ hLnd
    intro a b c hca hcb
    have hsnd : ∀ (z : ListingItem) (cc : Nat × ListingItem),
        cc ∈ (match findEntry (getExisting rows) z.id with
          | some e => if hasChanges e.row z then some (e.rowIndex, z) else none
          | none => none) → cc.2 = z := by
      intro z cc hcc
      cases hfe : findEntry (getExisting rows) z.id with
      | none => rw [hfe] at hcc; cases hcc
      | some e =>
          rw [hfe] at hcc
          by_cases hch : hasChanges e.row z
          · simp only [hch, if_true, Option.mem_def, Option.some.injEq] at hcc
            rw [← hcc]
          · simp [hch] at hcc
    have ha := hsnd a c hca
    have hb := hsnd b c hcb
    rw [← ha, hb]
  refine List.Nodup.map_on ?_ h1
  intro x hx y hy hxy
  rcases updOf_mem_elim L rows hids x hx with ⟨lx, hlx, kx, r0x, hpx, hcx, hex⟩
  rcases updOf_mem_elim L rows hids y hy with ⟨ly, hly, ky, r0y, hpy, hcy, hey⟩
  have hk : kx = ky := by
    rw [hex, hey] at hxy
    simpa using hxy
  obtain ⟨hgx, hix⟩ := lastPos_getElem rows lx.id kx r0x hpx
  obtain ⟨hgy, hiy⟩ := lastPos_getElem rows ly.id ky r0y hpy
  rw [hk] at hgx
  rw [hgy] at hgx
  obtain rfl := Option.some.inj hgx
  have hid2 : lx.id = ly.id := by rw [← hix, ← hiy]
  have : lx = ly := nodup_map_inj (fun l => l.id) L hL lx hlx ly hly hid2
  rw [hex, hey, hk, this]

theorem inactOf_mem_elim (E : List ExistingEntry) (seen : List String)
    (i : Nat) (hi : i ∈ inactOf E seen) :
    ∃ e ∈ E, e.rowIndex = i ∧ e.id ∉ seen ∧ e.row.status = "Active" := by
  rcases List.mem_filterMap.mp hi with ⟨e, he, hg⟩
  by_cases hc : (!(seen.contains e.id) && (e.row.status == "Active")) = true
  · have hprop : e.id ∉ seen ∧ e.row.status = "Active" := by simpa using hc
    rw [if_pos hc] at hg
    exact ⟨e, he, Option.some.inj hg, hprop.1, hprop.2⟩
  · rw [if_neg hc] at hg
    cases hg

theorem inactOf_mem_intro (E : List ExistingEntry) (seen : List String)
    (e : ExistingEntry) (he : e ∈ E) (h1 : e.id ∉ seen)
    (h2 : e.row.status = "Active") : e.rowIndex ∈ inactOf E seen := by
  refine List.mem_filterMap.mpr ⟨e, he, ?_⟩
  simp [h1, h2]

theorem getExisting_mem_id_ne (rows : List StoreRow) :
    ∀ e ∈ getExisting rows, e.id ≠ "" := by
  suffices h : ∀ rs i acc, (∀ e ∈ acc, (e : ExistingEntry).id ≠ "") →
      ∀ e ∈ getExistingGo i rs acc, e.id ≠ "" by
    exact h rows 0 [] (by intro e he; cases he)
  intro rs
  induction rs with
  | nil => intro i acc h; exact h
  | cons a as ih =>
      intro i acc h
      simp only [getExistingGo]
      by_cases hpa : a.propertyId = ""
      · have hb : (a.propertyId == "") = true := by simpa using hpa
        rw [if_pos hb]
        exact ih _ _ h
      · have hb : (a.propertyId == "") = false := by simpa using hpa
        rw [if_neg (by simp [hb])]
        refine ih _ _ ?_
        intro e he
        rcases jsMapSet_mem (fun e => e.id) acc ⟨a.propertyId, a, i + 1⟩ e he
          with h2 | h2
        · exact h e h2
        · rw [h2]
          exact hpa

theorem hasChanges_insertRow (l : ListingItem) (now : String)
    (h : l.priceNumber.isSome = true) :
    hasChanges (insertRowOf now l) l = false := by
  rcases Option.isSome_iff_exists.mp h with ⟨v, hv⟩
  simp [hasChanges, insertRowOf, numNe, hv]

theorem hasChanges_applyUpdate (r : StoreRow) (l : ListingItem) (now : String)
    (h : l.priceNumber.isSome = true) :
    hasChanges (applyUpdate r l now) l = false := by
  rcases Option.isSome_iff_exists.mp h with ⟨v, hv⟩
  simp [hasChanges, applyUpdate, numNe, hv]

theorem lastPos_map_insert (now : String) (ls : List ListingItem)
    (l : ListingItem) (hnd : (ls.map (fun l => l.id)).Nodup) (hl : l ∈ ls) :
    ∃ k, lastPos (ls.map (insertRowOf now)) l.id =
      some (k, insertRowOf now l) := by
  induction ls with
  | nil => cases hl
  | cons a as ih =>
      rw [List.map_cons, List.nodup_cons] at hnd
      rcases List.mem_cons.mp hl with h1 | h1
      · subst h1
        have hnone : lastPos (as.map (insertRowOf now)) l.id = none := by
          refine lastPos_eq_none _ _ ?_
          intro r hr hc
          rcases List.mem_map.mp hr with ⟨x, hx, hrx⟩
          rw [← hrx] at hc
          exact hnd.1 (List.mem_map.mpr ⟨x, hx, hc⟩)
        have hb : ((insertRowOf now l).propertyId == l.id) = true := by
          simp [insertRowOf]
        refine ⟨0, ?_⟩
        simp [lastPos, hnone, hb]
      · rcases ih hnd.2 h1 with ⟨k, hk⟩
        refine ⟨k + 1, ?_⟩
        simp [lastPos, hk]

theorem entry_at_index (rows : List StoreRow) (e : ExistingEntry)
    (he : e ∈ getExisting rows) (p : Nat) (heidx : e.rowIndex = p + 1)
    (r0 : StoreRow) (hg0 : rows[p]? = some r0) :
    e.row = r0 ∧ e.id = r0.propertyId := by
  have hene := getExisting_mem_id_ne rows e he
  have hfe := findEntry_of_mem _ e (getExisting_keys_nodup rows) he
  rw [findEntry_getExisting rows e.id hene] at hfe
  cases hlpe : lastPos rows e.id with
  | none => rw [hlpe] at hfe; cases hfe
  | some kre =>
      rw [hlpe] at hfe
      simp only [Option.map_some'] at hfe
      have he2 := Option.some.inj hfe
      have hlpe2 : lastPos rows e.id = some (kre.1, kre.2) := by rw [hlpe]
      obtain ⟨hgx, hix⟩ := lastPos_getElem rows e.id kre.1 kre.2 hlpe2
      have hrow : e.row = kre.2 := by rw [← he2]
      have hridx : e.rowIndex = kre.1 + 1 := by rw [← he2]
      have hk : kre.1 = p := by omega
      rw [hk, hg0] at hgx
      have h3 : r0 = kre.2 := Option.some.inj hgx
      constructor
      · rw [hrow, ← h3]
      · rw [← hix, ← h3]

theorem updOf_find_none (L : List ListingItem) (rows : List StoreRow)
    (hids : ∀ l ∈ L, l.id ≠ "") (p : Nat) (r0 : StoreRow)
    (hg0 : rows[p]? = some r0)
    (hno : ∀ l ∈ L, l.id = r0.propertyId → hasChanges r0 l = false) :
    (updOf L (getExisting rows)).find? (fun u => u.1 == p + 1) = none := by
  rw [List.find?_eq_none]
  intro x hx hbeq
  rcases updOf_mem_elim L rows hids x hx with ⟨lx, hlx, kx, r0x, hpx, hcx, hex⟩
  have hx1 : x.1 = p + 1 := by simpa using hbeq
  have hkx : kx = p := by rw [hex] at hx1; simpa using hx1
  obtain ⟨hgx, hix⟩ := lastPos_getElem rows lx.id kx r0x hpx
  rw [hkx, hg0] at hgx
  have h3 : r0 = r0x := Option.some.inj hgx
  have hlxid : lx.id = r0.propertyId := by rw [← hix, ← h3]
  have hfalse := hno lx hlx hlxid
  rw [← h3, hfalse] at hcx
  cases hcx

theorem inactOf_not_mem_at (rows : List StoreRow) (seen : List String)
    (p : Nat) (r0 : StoreRow) (hg0 : rows[p]? = some r0)
    (hcond : r0.propertyId ∈ seen ∨ ¬ r0.status = "Active") :
    (p + 1) ∉ inactOf (getExisting rows) seen := by
  intro hin
  rcases inactOf_mem_elim _ _ _ hin with ⟨e, he, heidx, henot, heact⟩
  obtain ⟨hrow, hid⟩ := entry_at_index rows e he p heidx r0 hg0
  rcases hcond with hc | hc
  · exact henot (hid ▸ hc)
  · exact hc (hrow ▸ heact)

/-- The effect of the batched writes on the row that carries the last
occurrence of its (non-empty) Property ID: found-and-changed rows receive the
update write, found-and-unchanged rows are untouched, and absent Active rows
receive the retirement write. -/
theorem applyRow_dispatch (L : List ListingItem) (rows : List StoreRow)
    (now : String) (hL : (L.map (fun l => l.id)).Nodup)
    (hids : ∀ l ∈ L, l.id ≠ "") (p : Nat) (r0 : StoreRow)
    (hlp : lastPos rows r0.propertyId = some (p, r0))
    (hne : r0.propertyId ≠ "") :
    applyRow (reconcile L (getExisting rows)) now (p + 1) r0 =
      match L.find? (fun l => l.id == r0.propertyId) with
      | some l => if hasChanges r0 l then applyUpdate r0 l now else r0
      | none => if r0.status = "Active" then retireRow r0 now else r0 := by
  have hres := reconcile_eq L (getExisting rows)
  have hupdates : (reconcile L (getExisting rows)).updates =
      updOf L (getExisting rows) := by rw [hres]
  have hinactl : (reconcile L (getExisting rows)).inactivates =
      inactOf (getExisting rows) (L.map (fun l => l.id)) := by rw [hres]
  obtain ⟨hg0, _⟩ := lastPos_getElem rows r0.propertyId p r0 hlp
  unfold applyRow
  rw [hupdates, hinactl]
  cases hfl : L.find? (fun l => l.id == r0.propertyId) with
  | some l =>
      have hlmem := List.mem_of_find?_eq_some hfl
      have hlid : l.id = r0.propertyId := by
        simpa using List.find?_some hfl
      by_cases hch : hasChanges r0 l
      · have hmem : (p + 1, l) ∈ updOf L (getExisting rows) :=
          updOf_mem_intro L rows l hlmem (hids l hlmem) p r0
            (by rw [hlid]; exact hlp) hch
        have hkeys := updOf_keys_nodup L rows hL hids
        have hfind : (updOf L (getExisting rows)).find?
            (fun u => u.1 == p + 1) = some (p + 1, l) :=
          find_of_keys_nodup Prod.fst (updOf L (getExisting rows)) (p + 1, l)
            hkeys hmem
        rw [hfind]
        simp [hch]
      · have hno : ∀ lx ∈ L, lx.id = r0.propertyId →
            hasChanges r0 lx = false := by
          intro lx hlx hlxid
          have hxl : lx = l := nodup_map_inj (fun l => l.id) L hL lx hlx l
            hlmem (hlxid.trans hlid.symm)
          rw [hxl]
          simpa using hch
        rw [updOf_find_none L rows hids p r0 hg0 hno]
        have hseen : r0.propertyId ∈ L.map (fun l => l.id) :=
          List.mem_map.mpr ⟨l, hlmem, hlid⟩
        have hnotin := inactOf_not_mem_at rows (L.map (fun l => l.id)) p r0
          hg0 (Or.inl hseen)
        simp [hnotin, hch]
  | none =>
      have hnoL : ∀ l ∈ L, ¬ l.id = r0.propertyId := by
        intro l hlm
        have := List.find?_eq_none.mp hfl l hlm
        simpa using this
      have hno : ∀ lx ∈ L, lx.id = r0.propertyId →
          hasChanges r0 lx = false :=
        fun lx hlx hlxid => absurd hlxid (hnoL lx hlx)
      rw [updOf_find_none L rows hids p r0 hg0 hno]
      have hnot_seen : r0.propertyId ∉ L.map (fun l => l.id) := by
        intro hmem
        rcases List.mem_map.mp hmem with ⟨l, hlm, hlid⟩
        exact hnoL l hlm hlid
      by_cases hact : r0.status = "Active"
      · have he0 : findEntry (getExisting rows) r0.propertyId =
            some ⟨r0.propertyId, r0, p + 1⟩ := by
          rw [findEntry_getExisting rows _ hne, hlp]
          rfl
        have hmem0 : (⟨r0.propertyId, r0, p + 1⟩ : ExistingEntry) ∈
            getExisting rows := List.mem_of_find?_eq_some he0
        have hin : (p + 1) ∈ inactOf (getExisting rows)
            (L.map (fun l => l.id)) :=
          inactOf_mem_intro _ _ _ hmem0 hnot_seen hact
        simp [hin, hact]
      · have hnotin := inactOf_not_mem_at rows (L.map (fun l => l.id)) p r0
          hg0 (Or.inr hact)
        simp [hnotin, hact]

/-- After applying the decisions of one run, the snapshot holds, for every
batch listing, a row from which the change detection reports no change
(provided the listing has a real, non-NaN price). -/
theorem findEntry_after_apply (L : List ListingItem) (rows : List StoreRow)
    (now : String) (hL : (L.map (fun l => l.id)).Nodup)
    (hids : ∀ l ∈ L, l.id ≠ "")
    (hnan : ∀ l ∈ L, l.priceNumber.isSome = true)
    (l : ListingItem) (hl : l ∈ L) :
    ∃ e2, findEntry (getExisting (applySheet rows
        (reconcile L (getExisting rows)) now)) l.id = some e2 ∧
      hasChanges e2.row l = false := by
  unfold applySheet
  rw [findEntry_getExisting _ l.id (hids l hl), lastPos_append,
    lastPos_applyTail]
  cases hlp : lastPos rows l.id with
  | some kr =>
      simp only [Option.map_some']
      refine ⟨⟨l.id, applyRow (reconcile L (getExisting rows)) now
        (1 + kr.1) kr.2,
        ((reconcile L (getExisting rows)).newRows.map (insertRowOf now)).length
          + kr.1 + 1⟩, rfl, ?_⟩
      have hpid : kr.2.propertyId = l.id :=
        (lastPos_getElem rows l.id kr.1 kr.2 (by rw [hlp])).2
      have hlp2 : lastPos rows kr.2.propertyId = some (kr.1, kr.2) := by
        rw [hpid, hlp]
      have hadd : 1 + kr.1 = kr.1 + 1 := Nat.add_comm 1 kr.1
      rw [hadd, applyRow_dispatch L rows now hL hids kr.1 kr.2 hlp2
        (by rw [hpid]; exact hids l hl)]
      have hfl : L.find? (fun x => x.id == kr.2.propertyId) = some l := by
        rw [hpid]
        exact find_of_keys_nodup (fun x => x.id) L l hL hl
      rw [hfl]
      by_cases hch : hasChanges kr.2 l
      · simp only [hch, if_true]
        exact hasChanges_applyUpdate kr.2 l now (hnan l hl)
      · have hch2 : hasChanges kr.2 l = false := by simpa using hch
        simp only [hch2, Bool.false_eq_true, if_false]
  | none =>
      simp only [Option.map_none']
      have hlnew : l ∈ newOf L (getExisting rows) := by
        rw [newOf, List.mem_filter]
        refine ⟨hl, ?_⟩
        rw [findEntry_getExisting rows l.id (hids l hl), hlp]
        rfl
      have hnodupNew : ((newOf L (getExisting rows)).map
          (fun l => l.id)).Nodup :=
        List.Nodup.sublist (List.Sublist.map _ (List.filter_sublist L)) hL
      rcases lastPos_map_insert now (newOf L (getExisting rows)) l hnodupNew
        hlnew with ⟨k, hk⟩
      have hnewrows : (reconcile L (getExisting rows)).newRows =
          newOf L (getExisting rows) := by rw [reconcile_eq]
      rw [hnewrows, hk]
      exact ⟨⟨l.id, insertRowOf now l, k + 1⟩, rfl,
        hasChanges_insertRow l now (hnan l hl)⟩

/-- After applying the decisions of one run, every snapshot entry whose id is
not in the batch carries a status other than Active: it was either retired by
this run or already not Active. -/
theorem status_after_apply (L : List ListingItem) (rows : List StoreRow)
    (now : String) (hL : (L.map (fun l => l.id)).Nodup)
    (hids : ∀ l ∈ L, l.id ≠ "") (e2 : ExistingEntry)
    (he2 : e2 ∈ getExisting (applySheet rows
      (reconcile L (getExisting rows)) now))
    (hseen : e2.id ∉ L.map (fun l => l.id)) :
    ¬ e2.row.status = "Active" := by
  have hne := getExisting_mem_id_ne _ e2 he2
  have hfe := findEntry_of_mem _ e2 (getExisting_keys_nodup _) he2
  rw [findEntry_getExisting _ e2.id hne] at hfe
  unfold applySheet at hfe
  rw [lastPos_append, lastPos_applyTail] at hfe
  cases hlp : lastPos rows e2.id with
  | some kr =>
      rw [hlp] at hfe
      simp only [Option.map_some'] at hfe
      have he2eq := Option.some.inj hfe
      have hrow : e2.row = applyRow (reconcile L (getExisting rows)) now
          (1 + kr.1) kr.2 := by rw [← he2eq]
      have hpid : kr.2.propertyId = e2.id :=
        (lastPos_getElem rows e2.id kr.1 kr.2 (by rw [hlp])).2
      have hlp2 : lastPos rows kr.2.propertyId = some (kr.1, kr.2) := by
        rw [hpid, hlp]
      have hadd : 1 + kr.1 = kr.1 + 1 := Nat.add_comm 1 kr.1
      rw [hadd] at hrow
      rw [applyRow_dispatch L rows now hL hids kr.1 kr.2 hlp2
        (by rw [hpid]; exact hne)] at hrow
      have hflnone : L.find? (fun x => x.id == kr.2.propertyId) = none := by
        rw [List.find?_eq_none]
        intro x hx hbeq
        have hxid : x.id = kr.2.propertyId := by simpa using hbeq
        exact hseen (List.mem_map.mpr ⟨x, hx, by rw [hxid, hpid]⟩)
      rw [hflnone] at hrow
      by_cases hact : kr.2.status = "Active"
      · rw [if_pos hact] at hrow
        rw [hrow]
        simp [retireRow]
      · rw [if_neg hact] at hrow
        rw [hrow]
        exact hact
  | none =>
      rw [hlp] at hfe
      simp only [Option.map_none'] at hfe
      cases hln : lastPos ((reconcile L (getExisting rows)).newRows.map
          (insertRowOf now)) e2.id with
      | none => rw [hln] at hfe; cases hfe
      | some kr2 =>
          rw [hln] at hfe
          simp only [Option.map_some'] at hfe
          obtain ⟨hg2, hp2⟩ := lastPos_getElem _ e2.id kr2.1 kr2.2
            (by rw [hln])
          rw [List.getElem?_map] at hg2
          cases hnr : (reconcile L (getExisting rows)).newRows[kr2.1]? with
          | none => rw [hnr] at hg2; cases hg2
          | some x =>
              rw [hnr] at hg2
              simp only [Option.map_some'] at hg2
              have hxr := Option.some.inj hg2
              have hxmem : x ∈ (reconcile L (getExisting rows)).newRows :=
                List.getElem?_mem hnr
              have hxL : x ∈ L := by
                have hnw : (reconcile L (getExisting rows)).newRows =
                    newOf L (getExisting rows) := by rw [reconcile_eq]
                rw [hnw] at hxmem
                exact List.mem_of_mem_filter hxmem
              have hxid : x.id = e2.id := by
                calc x.id = (insertRowOf now x).propertyId := rfl
                  _ = kr2.2.propertyId := by rw [hxr]
                  _ = e2.id := hp2
              exact absurd (List.mem_map.mpr ⟨x, hxL, hxid⟩) hseen

/-- C5 counterexample: a listing whose price string is non-numeric carries
priceNumber NaN; reconciling it against the empty snapshot inserts it, but
reconciling the same batch against the resulting snapshot classifies it as an
update again (1 update, not 0): the stored NaN price compares as different
from the incoming NaN price under JS strict inequality. -/
theorem idempotence_nan_counterexample :
    listN.priceNumber = none ∧
    (reconcile (dedupeById [listN]) (getExisting [])).added = 1 ∧
    (reconcile (dedupeById [listN]) (getExisting (applySheet []
      (reconcile (dedupeById [listN]) (getExisting [])) "t1"))).updated = 1 := by
  decide

/-- C5 amended: reconciliation is idempotent for every batch whose records
have non-empty ids (the data-model invariant) and real, non-NaN prices:
reconciling the de-duplicated batch against the snapshot produced by
applying its own decisions yields zero inserts, zero updates and zero
retirements.  A record whose priceNumber is NaN (and only such a record) is
re-classified as an update on every run, since NaN compares unequal to
itself. -/
theorem reconcile_idempotent (B : List ListingItem) (rows : List StoreRow)
    (now : String) (hidB : ∀ l ∈ B, l.id ≠ "")
    (hnanB : ∀ l ∈ B, l.priceNumber.isSome = true) :
    (reconcile (dedupeById B) (getExisting (applySheet rows
      (reconcile (dedupeById B) (getExisting rows)) now))).newRows = [] ∧
    (reconcile (dedupeById B) (getExisting (applySheet rows
      (reconcile (dedupeById B) (getExisting rows)) now))).updates = [] ∧
    (reconcile (dedupeById B) (getExisting (applySheet rows
      (reconcile (dedupeById B) (getExisting rows)) now))).inactivates = [] ∧
    (reconcile (dedupeById B) (getExisting (applySheet rows
      (reconcile (dedupeById B) (getExisting rows)) now))).added = 0 ∧
    (reconcile (dedupeById B) (getExisting (applySheet rows
      (reconcile (dedupeById B) (getExisting rows)) now))).updated = 0 ∧
    (reconcile (dedupeById B) (getExisting (applySheet rows
      (reconcile (dedupeById B) (getExisting rows)) now))).inactive = 0 := by
  have hL := dedupeById_ids_nodup B
  have hids : ∀ l ∈ dedupeById B, l.id ≠ "" :=
    fun l hl => hidB l (dedupeById_subset B l hl)
  have hnan : ∀ l ∈ dedupeById B, l.priceNumber.isSome = true :=
    fun l hl => hnanB l (dedupeById_subset B l hl)
  have hkey := findEntry_after_apply (dedupeById B) rows now hL hids hnan
  have hnew : newOf (dedupeById B) (getExisting (applySheet rows
      (reconcile (dedupeById B) (getExisting rows)) now)) = [] := by
    rw [newOf, List.filter_eq_nil_iff]
    intro l hl
    rcases hkey l hl with ⟨e2, he2, _⟩
    rw [he2]
    simp
  have hupd : updOf (dedupeById B) (getExisting (applySheet rows
      (reconcile (dedupeById B) (getExisting rows)) now)) = [] := by
    rw [updOf, List.filterMap_eq_nil_iff]
    intro l hl
    rcases hkey l hl with ⟨e2, he2, hch⟩
    rw [he2]
    simp [hch]
  have hina : inactOf (getExisting (applySheet rows
      (reconcile (dedupeById B) (getExisting rows)) now))
      ((dedupeById B).map (fun l => l.id)) = [] := by
    rw [inactOf, List.filterMap_eq_nil_iff]
    intro e2 he2
    by_cases hseen : e2.id ∈ (dedupeById B).map (fun l => l.id)
    · simp [hseen]
    · have hstat := status_after_apply (dedupeById B) rows now hL hids e2
        he2 hseen
      simp [hstat]
  rw [reconcile_eq]
  refine ⟨hnew, hupd, hina, ?_, ?_, ?_⟩
  · rw [show (WriteResult.mk (newOf (dedupeById B) _) _ _ _ _ _ _).added =
      (newOf (dedupeById B) (getExisting (applySheet rows
        (reconcile (dedupeById B) (getExisting rows)) now))).length from rfl]
    rw [hnew]
    rfl
  · rw [show (WriteResult.mk _ (updOf (dedupeById B) _) _ _ _ _ _).updated =
      (updOf (dedupeById B) (getExisting (applySheet rows
        (reconcile (dedupeById B) (getExisting rows)) now))).length from rfl]
    rw [hupd]
    rfl
  · rw [show (WriteResult.mk _ _ (inactOf _ _) _ _ _ _).inactive =
      (inactOf (getExisting (applySheet rows
        (reconcile (dedupeById B) (getExisting rows)) now))
        ((dedupeById B).map (fun l => l.id))).length from rfl]
    rw [hina]
    rfl

/-- Witness for the amended C5 theorem at a concrete input: one well-priced
listing reconciled against a snapshot holding one Active row of another id. -/
theorem reconcile_idempotent_witness :
    (reconcile (dedupeById [listU]) (getExisting (applySheet [rowA]
      (reconcile (dedupeById [listU]) (getExisting [rowA])) "t"))).newRows
        = [] ∧
    (reconcile (dedupeById [listU]) (getExisting (applySheet [rowA]
      (reconcile (dedupeById [listU]) (getExisting [rowA])) "t"))).updates
        = [] ∧
    (reconcile (dedupeById [listU]) (getExisting (applySheet [rowA]
      (reconcile (dedupeById [listU]) (getExisting [rowA]))
        "t"))).inactivates = [] ∧
    (reconcile (dedupeById [listU]) (getExisting (applySheet [rowA]
      (reconcile (dedupeById [listU]) (getExisting [rowA])) "t"))).added
        = 0 ∧
    (reconcile (dedupeById [listU]) (getExisting (applySheet [rowA]
      (reconcile (dedupeById [listU]) (getExisting [rowA])) "t"))).updated
        = 0 ∧
    (reconcile (dedupeById [listU]) (getExisting (applySheet [rowA]
      (reconcile (dedupeById [listU]) (getExisting [rowA])) "t"))).inactive
        = 0 :=
  reconcile_idempotent [listU] [rowA] "t" (by decide) (by decide)

end Crawler591

